import Mathlib

/-!
Verification development for the many-to-many capacitated matching engine of
`fairpyx/utils/graph_utils.py`.

The file shallowly embeds the three Python functions:

* `many_to_many_matching`                      (the facade),
* `many_to_many_matching_using_network_flow`   (flow engine),
* `many_to_many_matching_using_node_cloning`   (cloning engine).

Agent and item identifiers are modelled as natural numbers (the Python code
accepts arbitrary hashable identifiers drawn from one shared namespace; the
claims under study only need a countable identifier space with decidable
equality and a linear order for the result sort).  Values are integers
(`valuations: dict[any, dict[any, int]]` in the source).

The two external primitives (`networkz.max_flow_min_cost` and
`networkz.max_weight_matching`) are not part of this repository; they enter the
embedding as explicit oracle arguments (`Flow`, a list of matched node pairs),
constrained by hypotheses that state exactly the contract the spec assigns to
them (a valid integral min-cost maximum flow; a maximum-weight matching).
-/

namespace FairpyxGraph

/-- Model of the Python exceptions that the decode paths can raise.
`valueError` models `raise ValueError(...)`; `nameError` models a `NameError`
raised while evaluating an f-string that references an undefined variable;
`keyError` models a `KeyError` from a failed dict lookup. -/
inductive PyError where
  | valueError (msg : String)
  | nameError (msg : String)
  | keyError
deriving DecidableEq, Repr

/-- The input of both engines, as unpacked by the engines' signatures:
iteration lists of agents and items, capacity callables, the value callable,
the entitlement callable, and the flow engine's `allow_negative_value_assignments`
flag (the cloning engine has no such parameter and its embedding ignores it). -/
structure MInput where
  agents : List ℕ
  items : List ℕ
  agentCap : ℕ → ℕ
  itemCap : ℕ → ℕ
  value : ℕ → ℕ → ℤ
  ent : ℕ → ℤ
  allowNeg : Bool

/-! ## Flow engine: `many_to_many_matching_using_network_flow`

The constructed network has node set `{s, t} ∪ agents ∪ items` (the Python code
maps an integer agent `a` to node name `"A{a}"` and an integer item `i` to
`"I{i}"`, so agent nodes and item nodes are distinct), and edges

* `s → agent`  with capacity `agent_capacity(agent)`, weight 0;
* `agent → item` with capacity 1, weight `-(value * entitlement)`,
  present unless `value < 0 ∧ ¬allow_negative_value_assignments`;
* `item → t`  with capacity `item_capacity(item)`, weight 0.

A flow returned by the solver assigns an amount to every edge of that network;
we record the three layers as three functions. -/

/-- A flow on the layered network: `sa a` is the flow on edge `s → a`,
`ai a i` the flow on `a → i`, `it i` the flow on `i → t`. -/
structure Flow where
  sa : ℕ → ℕ
  ai : ℕ → ℕ → ℕ
  it : ℕ → ℕ

/-- The `agent → item` edge is present in the network: both endpoints are in
the iteration lists and the pair survives the negative-value filter
(`if value < 0 and not allow_negative_value_assignments: continue`). -/
def MInput.aiPresent (I : MInput) (a i : ℕ) : Prop :=
  a ∈ I.agents ∧ i ∈ I.items ∧ (I.allowNeg = true ∨ 0 ≤ I.value a i)

instance (I : MInput) (a i : ℕ) : Decidable (I.aiPresent a i) := by
  unfold MInput.aiPresent; infer_instance

/-- The flow amount the decoder reads for a pair `(a, i)`:
`flow[agent_str(agent)].get(item_str(item), 0)` is the edge's flow when the
edge exists in the network and `0` otherwise. -/
def flowAt (I : MInput) (f : Flow) (a i : ℕ) : ℕ :=
  if I.aiPresent a i then f.ai a i else 0

/-- The flow respects every edge capacity and conservation at every
agent node and every item node (the contract of a feasible flow on the
constructed network). -/
def IsValidFlow (I : MInput) (f : Flow) : Prop :=
  (∀ a ∈ I.agents, f.sa a ≤ I.agentCap a) ∧
  (∀ a ∈ I.agents, ∀ i ∈ I.items, flowAt I f a i ≤ 1) ∧
  (∀ i ∈ I.items, f.it i ≤ I.itemCap i) ∧
  (∀ a ∈ I.agents, (I.items.map (fun i => flowAt I f a i)).sum = f.sa a) ∧
  (∀ i ∈ I.items, (I.agents.map (fun a => flowAt I f a i)).sum = f.it i)

instance (I : MInput) (f : Flow) : Decidable (IsValidFlow I f) := by
  unfold IsValidFlow; infer_instance

/-- Total flow value: the amount leaving the source. -/
def flowValue (I : MInput) (f : Flow) : ℕ :=
  (I.agents.map f.sa).sum

/-- Total flow cost.  Only `agent → item` edges have nonzero weight
`-(value * entitlement)`. -/
def flowCost (I : MInput) (f : Flow) : ℤ :=
  (I.agents.map (fun a =>
    (I.items.map (fun i =>
      (flowAt I f a i : ℤ) * (-(I.value a i * I.ent a)))).sum)).sum

/-- The solver contract of `networkz.max_flow_min_cost`: a feasible flow of
maximum value whose cost is minimum among feasible flows of that value. -/
def IsMinCostMaxFlow (I : MInput) (f : Flow) : Prop :=
  IsValidFlow I f ∧
  (∀ g : Flow, IsValidFlow I g → flowValue I g ≤ flowValue I f) ∧
  (∀ g : Flow, IsValidFlow I g → flowValue I g = flowValue I f →
    flowCost I f ≤ flowCost I g)

/-- Model of Python's `list.sort()` on item identifiers: ascending order. -/
def pySort (l : List ℕ) : List ℕ :=
  List.insertionSort (· ≤ ·) l

/-- Decode one agent's bundle from the flow (inner loop of step `c` of the
flow engine): append `item` when the edge flow is 1, skip when it is 0, and
on any other amount raise.  The Python `raise ValueError(f"...{itemflow}...")`
statement references the undefined name `itemflow` (the local variable is
`agent_item_flow`), so evaluating the f-string raises
`NameError: name 'itemflow' is not defined` before any `ValueError` exists. -/
def flowStep (I : MInput) (f : Flow) (a : ℕ) (acc : List ℕ) (i : ℕ) :
    Except PyError (List ℕ) :=
  if flowAt I f a i = 1 then Except.ok (acc ++ [i])
  else if flowAt I f a i = 0 then Except.ok acc
  else Except.error (PyError.nameError "name itemflow is not defined")

def decodeAgent (I : MInput) (f : Flow) (a : ℕ) : Except PyError (List ℕ) :=
  (I.items.foldlM (flowStep I f a) []).map pySort

/-- The flow engine's result: a mapping (association list in agent iteration
order, modelling the Python dict's insertion order) from each agent to its
sorted bundle. -/
def networkFlowMatching (I : MInput) (f : Flow) :
    Except PyError (List (ℕ × List ℕ)) :=
  I.agents.foldlM (fun acc a =>
    (decodeAgent I f a).map (fun b => acc ++ [(a, b)])) []

/-- Total entitlement-weighted value of a returned mapping, counting items
with multiplicity. -/
def bundlesTotal (I : MInput) (m : List (ℕ × List ℕ)) : ℤ :=
  (m.map (fun p => ((p.2.map (fun i => I.value p.1 i * I.ent p.1)).sum))).sum

/-! ## Cloning engine: `many_to_many_matching_using_node_cloning`

A node of the cloned bipartite graph is either a bare identifier (Python: the
identifier itself, used when the capacity is exactly 1) or a clone
(Python: the tuple `(id, k)`, used when the capacity differs from 1). -/

/-- A node of the cloned graph. -/
inductive CNode where
  | plain (x : ℕ)
  | clone (x : ℕ) (k : ℕ)
deriving DecidableEq, Repr

/-- Python's `_remove_unit_index`: a tuple `(id, k)` reduces to `id`; a bare
identifier is unchanged. -/
def stripNode : CNode → ℕ
  | CNode.plain x => x
  | CNode.clone x _ => x

/-- The edges the inner loop of the cloning engine adds for one
`(agent, item)` pair, following the four-way branch on
`num_of_item_units == 1` and `num_of_agent_clones == 1` (the agent side is
always the first endpoint of an added edge). -/
def cloneEdgesFor (ca ci : ℕ) (a i : ℕ) : List (CNode × CNode) :=
  if ci = 1 ∧ ca = 1 then
    [(CNode.plain a, CNode.plain i)]
  else if ci ≠ 1 ∧ ca = 1 then
    (List.range ci).map (fun u => (CNode.plain a, CNode.clone i u))
  else if ci = 1 ∧ ca ≠ 1 then
    (List.range ca).map (fun k => (CNode.clone a k, CNode.plain i))
  else
    (List.range ca).flatMap (fun k =>
      (List.range ci).map (fun u => (CNode.clone a k, CNode.clone i u)))

/-- The full weighted edge list the cloning engine builds
(`for agent in agents: for item in items: ...`), each edge paired with its
weight `value(agent, item) * entitlement(agent)`. -/
def cloneEdges (I : MInput) : List ((CNode × CNode) × ℤ) :=
  I.agents.flatMap (fun a =>
    I.items.flatMap (fun i =>
      (cloneEdgesFor (I.agentCap a) (I.itemCap i) a i).map
        (fun e => (e, I.value a i * I.ent a))))

/-- Two oriented pairs denote the same undirected edge. -/
def sameEdge (e e' : CNode × CNode) : Prop :=
  e = e' ∨ e = (e'.2, e'.1)

instance (e e' : CNode × CNode) : Decidable (sameEdge e e') := by
  unfold sameEdge; infer_instance

/-- All endpoints of a list of matched pairs. -/
def listNodes (M : List (CNode × CNode)) : List CNode :=
  M.flatMap (fun e => [e.1, e.2])

/-- The contract of the matched-pair set returned by
`networkz.max_weight_matching`: every matched pair is (in some orientation) an
edge of the graph, and no node is covered twice (this also rules out listing
an edge in both orientations, listing it twice, and matching a self-loop). -/
def IsMatchingList (M : List (CNode × CNode)) (E : List ((CNode × CNode) × ℤ)) : Prop :=
  (∀ e ∈ M, ∃ p ∈ E, sameEdge e p.1) ∧ (listNodes M).Nodup

instance (M : List (CNode × CNode)) (E : List ((CNode × CNode) × ℤ)) :
    Decidable (IsMatchingList M E) := by
  unfold IsMatchingList; infer_instance

/-- The weight the graph stores for a matched pair: the entry of the edge list
that matches it in either orientation; `networkx.Graph.add_edge` overwrites on
re-insertion, so the last matching entry wins. -/
def weightOf (e : CNode × CNode) (E : List ((CNode × CNode) × ℤ)) : ℤ :=
  ((E.reverse.find? (fun p => decide (sameEdge e p.1))).map Prod.snd).getD 0

/-- Total weight of a matched-pair list within an edge list. -/
def matchingWeight (M : List (CNode × CNode)) (E : List ((CNode × CNode) × ℤ)) : ℤ :=
  (M.map (fun e => weightOf e E)).sum

/-- Boolean matching test used to enumerate the canonical matchings of a
concrete edge list. -/
def canonMatching (M : List ((CNode × CNode) × ℤ)) : Bool :=
  (listNodes (M.map Prod.fst)).Nodup

/-- The maximum weight over all sublists of the edge list that are matchings
(the empty matching, of weight 0, is always among them). -/
def maxMatchingWeight (E : List ((CNode × CNode) × ℤ)) : ℤ :=
  ((E.sublists.filter canonMatching).map
    (fun M => (M.map Prod.snd).sum)).foldl max 0

/-- The full oracle contract for the cloning engine: the returned pair list is
a matching of the built graph whose total weight is the maximum achievable by
any matching of that graph. -/
def IsMaxWeightMatching (M : List (CNode × CNode)) (I : MInput) : Prop :=
  IsMatchingList M (cloneEdges I) ∧
  matchingWeight M (cloneEdges I) = maxMatchingWeight (cloneEdges I)

instance (M : List (CNode × CNode)) (I : MInput) :
    Decidable (IsMaxWeightMatching M I) := by
  unfold IsMaxWeightMatching; infer_instance

/-- `defaultdict(list)` append: `map[k].append(x)` keeps the key's position if
present and inserts the key at the end otherwise. -/
def ddAppend (m : List (ℕ × List ℕ)) (k : ℕ) (x : ℕ) : List (ℕ × List ℕ) :=
  match m with
  | [] => [(k, [x])]
  | (k', l) :: rest =>
    if k' = k then (k', l ++ [x]) :: rest else (k', l) :: ddAppend rest k x

/-- `defaultdict(list)` read: a missing key reads as the empty list. -/
def ddGet (m : List (ℕ × List ℕ)) (k : ℕ) : List ℕ :=
  match m with
  | [] => []
  | (k', l) :: rest => if k' = k then l else ddGet rest k

/-- Role resolution for one matched edge (step `c` of the cloning engine):
strip both endpoints; if the first stripped endpoint is an agent it is the
agent, else if the second is, it is; otherwise no agent is found. -/
def classify (agents : List ℕ) (e : CNode × CNode) : Option (ℕ × ℕ) :=
  if stripNode e.1 ∈ agents then some (stripNode e.1, stripNode e.2)
  else if stripNode e.2 ∈ agents then some (stripNode e.2, stripNode e.1)
  else none

/-- The cloning engine's decode loop: classify each matched edge and append
the item to the resolved agent's bundle; `raise ValueError(f"Cannot find an
agent in {edge}")` when neither endpoint resolves to an agent. -/
def cloneStep (agents : List ℕ) (acc : List (ℕ × List ℕ)) (e : CNode × CNode) :
    Except PyError (List (ℕ × List ℕ)) :=
  match classify agents e with
  | some (a, i) => Except.ok (ddAppend acc a i)
  | none => Except.error (PyError.valueError "Cannot find an agent in edge")

def cloningDecode (agents : List ℕ) (M : List (CNode × CNode)) :
    Except PyError (List (ℕ × List ℕ)) :=
  M.foldlM (cloneStep agents) []

/-- The cloning engine's result for a given matching oracle output. -/
def nodeCloningMatching (I : MInput) (M : List (CNode × CNode)) :
    Except PyError (List (ℕ × List ℕ)) :=
  cloningDecode I.agents M

/-! ## Facade: `many_to_many_matching`

The facade receives the capacity dicts and the valuation table, and calls the
flow engine with `agents = agent_capacities.keys()`,
`items = item_capacities.keys()`,
`agent_item_value = lambda agent, item: valuations[agent][item]`.  Dicts are
modelled as association lists in insertion order (keys unique). -/

/-- Association-list lookup (dict lookup; keys are unique in a dict). -/
def lookupList {β : Type} (m : List (ℕ × β)) (k : ℕ) : Option β :=
  (m.find? (fun p => p.1 = k)).map Prod.snd

/-- The valuation table covers every `(agent, item)` pair the flow engine's
graph-construction loop evaluates; when it does not, the lambda raises
`KeyError` during graph construction. -/
def valuationsCover (agentsL itemsL : List ℕ) (V : List (ℕ × List (ℕ × ℤ))) : Prop :=
  ∀ a ∈ agentsL, ∀ i ∈ itemsL,
    ((lookupList V a).bind (fun row => lookupList row i)).isSome

instance (agentsL itemsL : List ℕ) (V : List (ℕ × List (ℕ × ℤ))) :
    Decidable (valuationsCover agentsL itemsL V) := by
  unfold valuationsCover; infer_instance

/-- The `MInput` the facade hands to the flow engine. -/
def facadeInput (itemCaps agentCaps : List (ℕ × ℕ)) (V : List (ℕ × List (ℕ × ℤ)))
    (ent : ℕ → ℤ) : MInput where
  agents := agentCaps.map Prod.fst
  items := itemCaps.map Prod.fst
  agentCap := fun a => (lookupList agentCaps a).getD 0
  itemCap := fun i => (lookupList itemCaps i).getD 0
  value := fun a i => ((lookupList V a).bind (fun row => lookupList row i)).getD 0
  ent := ent
  allowNeg := false

/-- The facade `many_to_many_matching`: no input validation of any kind; it
evaluates `valuations[agent][item]` for every pair of capacity-dict keys while
building the graph (a missing entry raises `KeyError` there), then delegates
to the flow engine with `allow_negative_value_assignments` left at its default
`False`. -/
def many_to_many_matching (itemCaps agentCaps : List (ℕ × ℕ))
    (V : List (ℕ × List (ℕ × ℤ))) (ent : ℕ → ℤ) (f : Flow) :
    Except PyError (List (ℕ × List ℕ)) :=
  if valuationsCover (agentCaps.map Prod.fst) (itemCaps.map Prod.fst) V then
    networkFlowMatching (facadeInput itemCaps agentCaps V ent) f
  else
    Except.error PyError.keyError

/-! ## Characterization of the decode loops -/

/-- The bundle the flow engine's decode produces for one agent when no edge
flow exceeds 1: the sorted list of items whose edge carries one unit. -/
def flowBundle (I : MInput) (f : Flow) (a : ℕ) : List ℕ :=
  pySort (I.items.filter (fun i => flowAt I f a i = 1))

/-- The full successful result of the flow engine. -/
def flowResult (I : MInput) (f : Flow) : List (ℕ × List ℕ) :=
  I.agents.map (fun a => (a, flowBundle I f a))

/-- The pure step of the cloning decode: append the classified edge's item to
its agent's bundle (an unclassifiable edge leaves the map unchanged; the
effectful decode raises there instead). -/
def ddStep (agents : List ℕ) (acc : List (ℕ × List ℕ)) (e : CNode × CNode) :
    List (ℕ × List ℕ) :=
  match classify agents e with
  | some (a, i) => ddAppend acc a i
  | none => acc

/-- The successful cloning decode: fold the classified edges into the
`defaultdict`. -/
def cloningFold (agents : List ℕ) (M : List (CNode × CNode)) : List (ℕ × List ℕ) :=
  M.foldl (ddStep agents) []

/-- The items the decode appends to agent `a`'s bundle, in matching iteration
order. -/
def bundleOf (agents : List ℕ) (M : List (CNode × CNode)) (a : ℕ) : List ℕ :=
  M.filterMap (fun e =>
    match classify agents e with
    | some (a', i) => if a' = a then some i else none
    | none => none)

/-- The clone nodes representing a capacity-`c` vertex `x`: the bare
identifier when `c = 1`, the `c` clones otherwise (none when `c = 0`). -/
def nodesFor (c : ℕ) (x : ℕ) : List CNode :=
  if c = 1 then [CNode.plain x] else (List.range c).map (CNode.clone x)

/-- The endpoint of a matched edge the decode resolves as the agent. -/
def agentSideNode (agents : List ℕ) (e : CNode × CNode) : CNode :=
  if stripNode e.1 ∈ agents then e.1 else e.2

/-- The endpoint of a matched edge the decode resolves as the item. -/
def itemSideNode (agents : List ℕ) (e : CNode × CNode) : CNode :=
  if stripNode e.1 ∈ agents then e.2 else e.1

/-! ## Assignments

A (duplicate-free) assignment is a finite set of `(agent, item)` pairs; it is
admissible when every pair is an edge of the constructed network (both
identifiers listed; the pair survives the negative-value filter) and both
per-agent and per-item capacity bounds hold. -/

/-- Capacity-respecting assignment over the network's present pairs. -/
def Admissible (I : MInput) (S : Finset (ℕ × ℕ)) : Prop :=
  (∀ p ∈ S, I.aiPresent p.1 p.2) ∧
  (∀ a ∈ I.agents, (S.filter (fun p => p.1 = a)).card ≤ I.agentCap a) ∧
  (∀ i ∈ I.items, (S.filter (fun p => p.2 = i)).card ≤ I.itemCap i)

instance (I : MInput) (S : Finset (ℕ × ℕ)) : Decidable (Admissible I S) := by
  unfold Admissible; infer_instance

/-- Total entitlement-weighted value of an assignment. -/
def totalValue (I : MInput) (S : Finset (ℕ × ℕ)) : ℤ :=
  ∑ p ∈ S, I.value p.1 p.2 * I.ent p.1

/-- The flow induced by an assignment: one unit on each assigned pair. -/
def flowOfSet (S : Finset (ℕ × ℕ)) : Flow where
  sa := fun a => (S.filter (fun p => p.1 = a)).card
  ai := fun a i => if (a, i) ∈ S then 1 else 0
  it := fun i => (S.filter (fun p => p.2 = i)).card

/-! ## Concrete instances used in counterexamples and witnesses -/

/-- C1's instance: agents `0` (capacity 2) and `1` (capacity 1); items `2`
(capacity 2) and `3` (capacity 1); all values nonnegative, entitlement 1,
default mode. -/
def I1 : MInput where
  agents := [0, 1]
  items := [2, 3]
  agentCap := fun a => if a = 0 then 2 else 1
  itemCap := fun i => if i = 2 then 2 else 1
  value := fun a i =>
    if a = 0 ∧ i = 2 then 1 else if a = 1 ∧ i = 3 then 10 else 0
  ent := fun _ => 1
  allowNeg := false

/-- The unique maximum flow of `I1`'s network (value 3). -/
def f1 : Flow where
  sa := fun a => if a = 0 then 2 else 1
  ai := fun a i => if a = 0 then 1 else if i = 2 then 1 else 0
  it := fun i => if i = 2 then 2 else 1

/-- The better (but smaller) assignment in `I1`: agent 0 takes item 2,
agent 1 takes item 3, total value 11. -/
def S1 : Finset (ℕ × ℕ) := {(0, 2), (1, 3)}

/-- The unique maximum-cardinality assignment of `I1` (cardinality 3, total
value 1): the one the flow engine is forced into. -/
def Sw1 : Finset (ℕ × ℕ) := {(0, 2), (0, 3), (1, 2)}

/-- C3/C4's instance: one agent `0` of capacity 2, one item `1` of capacity 2,
value 5, entitlement 1. -/
def I34 : MInput where
  agents := [0]
  items := [1]
  agentCap := fun _ => 2
  itemCap := fun _ => 2
  value := fun _ _ => 5
  ent := fun _ => 1
  allowNeg := false

/-- A maximum-weight matching of `I34`'s cloned graph: both parallel
clone-pairs (weight 10). -/
def M3 : List (CNode × CNode) :=
  [(CNode.clone 0 0, CNode.clone 1 0), (CNode.clone 0 1, CNode.clone 1 1)]

/-- Another maximum-weight matching of `I34`'s cloned graph: the crossed
clone-pairs (weight 10). -/
def M4 : List (CNode × CNode) :=
  [(CNode.clone 0 0, CNode.clone 1 1), (CNode.clone 0 1, CNode.clone 1 0)]

/-- The unique maximum flow of `I34`'s network (the single unit-capacity
`agent → item` edge is the bottleneck). -/
def f4 : Flow where
  sa := fun _ => 1
  ai := fun _ _ => 1
  it := fun _ => 1

/-- C5's facade input: item `1` with capacity 1. -/
def itemCaps5 : List (ℕ × ℕ) := [(1, 1)]

/-- C5's facade input: agent `0` with capacity 1. -/
def agentCaps5 : List (ℕ × ℕ) := [(0, 1)]

/-- C5's valuation table: it references item `7`, which is absent from the
item-capacity mapping. -/
def V5 : List (ℕ × List (ℕ × ℤ)) := [(0, [(1, 3), (7, 9)])]

/-- A valuation table identical to `V5` on the capacity keys but without the
dangling reference. -/
def V5' : List (ℕ × List (ℕ × ℤ)) := [(0, [(1, 3)])]

/-- The min-cost maximum flow of C5's one-pair network. -/
def f5 : Flow where
  sa := fun _ => 1
  ai := fun _ _ => 1
  it := fun _ => 1

/-- C6's instance: one agent `0`, one item `1`, both capacity 1, negative
value, so the maximum-weight matching is empty. -/
def I6 : MInput where
  agents := [0]
  items := [1]
  agentCap := fun _ => 1
  itemCap := fun _ => 1
  value := fun _ _ => -3
  ent := fun _ => 1
  allowNeg := false

/-- C8's instance: one agent `0`, one item `1`, both capacity 1, value 7. -/
def I8 : MInput where
  agents := [0]
  items := [1]
  agentCap := fun _ => 1
  itemCap := fun _ => 1
  value := fun _ _ => 7
  ent := fun _ => 1
  allowNeg := false

/-- A corrupted solver answer for `I8`: two units on the unit-capacity
`agent → item` edge. -/
def f8 : Flow where
  sa := fun _ => 2
  ai := fun _ _ => 2
  it := fun _ => 2

/-- C9's instance: agents `{0, 1}` and items `{1, 2}` overlap on identifier
`1`; all capacities 1; the (agent 0, item 1) pair has value 10, the rest
value 1. -/
def I9 : MInput where
  agents := [0, 1]
  items := [1, 2]
  agentCap := fun _ => 1
  itemCap := fun _ => 1
  value := fun a i => if a = 0 ∧ i = 1 then 10 else 1
  ent := fun _ => 1
  allowNeg := false

/-- The unique maximum-weight matching of `I9`'s graph — the single edge
between agent `0` and item `1` — listed in the flipped orientation a set
iteration may produce. -/
def M9 : List (CNode × CNode) := [(CNode.plain 1, CNode.plain 0)]

/-- Witness instance for the capacity-respect theorem: two agents, two
items, mixed capacities, nonnegative values. -/
def Iw : MInput where
  agents := [0, 1]
  items := [2, 3]
  agentCap := fun a => if a = 0 then 1 else 2
  itemCap := fun i => if i = 2 then 1 else 2
  value := fun a i => (a : ℤ) + (i : ℤ)
  ent := fun _ => 1
  allowNeg := false

/-- A valid flow on `Iw`'s network. -/
def fw : Flow where
  sa := fun _ => 1
  ai := fun a i => if (a = 0 ∧ i = 2) ∨ (a = 1 ∧ i = 3) then 1 else 0
  it := fun _ => 1

/-- A matching of `Iw`'s cloned graph. -/
def Mw : List (CNode × CNode) := [(CNode.plain 0, CNode.plain 2)]

/-- C10's witness instance: agent `0` has capacity 0, agent `1` capacity 1,
one item `2`. -/
def I10 : MInput where
  agents := [0, 1]
  items := [2]
  agentCap := fun a => if a = 0 then 0 else 1
  itemCap := fun _ => 1
  value := fun _ _ => 1
  ent := fun _ => 1
  allowNeg := false

/-- A valid flow on `I10`'s network: the unit goes through agent 1. -/
def f10 : Flow where
  sa := fun a => if a = 1 then 1 else 0
  ai := fun a _ => if a = 1 then 1 else 0
  it := fun _ => 1

/-- A matching of `I10`'s cloned graph. -/
def M10 : List (CNode × CNode) := [(CNode.plain 1, CNode.plain 2)]

theorem flowStep_fold (I : MInput) (f : Flow) (a : ℕ) (l : List ℕ)
    (h : ∀ i ∈ l, flowAt I f a i ≤ 1) (acc : List ℕ) :
    l.foldlM (flowStep I f a) acc
      = Except.ok (acc ++ l.filter (fun i => flowAt I f a i = 1)) := by
  induction l generalizing acc with
  | nil => simp only [List.foldlM_nil, List.filter_nil, List.append_nil]; rfl
  | cons x xs ih =>
    have hx : flowAt I f a x ≤ 1 := h x (by simp)
    have hxs : ∀ i ∈ xs, flowAt I f a i ≤ 1 := fun i hi => h i (by simp [hi])
    by_cases h1 : flowAt I f a x = 1
    · have hstep : flowStep I f a acc x = Except.ok (acc ++ [x]) := by
        simp [flowStep, h1]
      rw [List.foldlM_cons, hstep]
      show xs.foldlM (flowStep I f a) (acc ++ [x]) = _
      rw [ih hxs]
      simp [List.filter_cons, h1]
    · have h0 : flowAt I f a x = 0 := by omega
      have hstep : flowStep I f a acc x = Except.ok acc := by
        simp [flowStep, h0, h1]
      rw [List.foldlM_cons, hstep]
      show xs.foldlM (flowStep I f a) acc = _
      rw [ih hxs]
      simp [List.filter_cons, h0, h1]

theorem decodeAgent_eq (I : MInput) (f : Flow) (a : ℕ)
    (h : ∀ i ∈ I.items, flowAt I f a i ≤ 1) :
    decodeAgent I f a = Except.ok (flowBundle I f a) := by
  unfold decodeAgent flowBundle
  rw [flowStep_fold I f a I.items h []]
  rfl

theorem networkFlow_fold (I : MInput) (f : Flow) (l : List ℕ)
    (h : ∀ a ∈ l, ∀ i ∈ I.items, flowAt I f a i ≤ 1) (acc : List (ℕ × List ℕ)) :
    l.foldlM (fun acc a => (decodeAgent I f a).map (fun b => acc ++ [(a, b)])) acc
      = Except.ok (acc ++ l.map (fun a => (a, flowBundle I f a))) := by
  induction l generalizing acc with
  | nil => simp only [List.foldlM_nil, List.map_nil, List.append_nil]; rfl
  | cons x xs ih =>
    have hx := h x (by simp)
    have hxs : ∀ a ∈ xs, ∀ i ∈ I.items, flowAt I f a i ≤ 1 :=
      fun a ha => h a (by simp [ha])
    have hstep : (decodeAgent I f x).map (fun b => acc ++ [(x, b)])
        = Except.ok (acc ++ [(x, flowBundle I f x)]) := by
      rw [decodeAgent_eq I f x hx]; rfl
    rw [List.foldlM_cons, hstep]
    show xs.foldlM (fun acc a => (decodeAgent I f a).map (fun b => acc ++ [(a, b)]))
        (acc ++ [(x, flowBundle I f x)]) = _
    rw [ih hxs]
    simp

/-- When every `agent → item` edge carries at most one unit of flow, the flow
engine succeeds and returns each agent (in iteration order) with its sorted
bundle of unit-flow items. -/
theorem networkFlowMatching_eq (I : MInput) (f : Flow)
    (h : ∀ a ∈ I.agents, ∀ i ∈ I.items, flowAt I f a i ≤ 1) :
    networkFlowMatching I f = Except.ok (flowResult I f) := by
  unfold networkFlowMatching flowResult
  rw [networkFlow_fold I f I.agents h []]
  rfl

theorem cloneStep_fold (agents : List ℕ) (M : List (CNode × CNode))
    (h : ∀ e ∈ M, (classify agents e).isSome) (acc : List (ℕ × List ℕ)) :
    M.foldlM (cloneStep agents) acc
      = Except.ok (M.foldl (ddStep agents) acc) := by
  induction M generalizing acc with
  | nil => rfl
  | cons x xs ih =>
    have hx := h x (by simp)
    have hxs : ∀ e ∈ xs, (classify agents e).isSome := fun e he => h e (by simp [he])
    match hcl : classify agents x with
    | some (a, i) =>
      have hstep : cloneStep agents acc x = Except.ok (ddAppend acc a i) := by
        simp [cloneStep, hcl]
      have hdd : ddStep agents acc x = ddAppend acc a i := by
        simp [ddStep, hcl]
      rw [List.foldlM_cons, hstep, List.foldl_cons, hdd]
      show xs.foldlM (cloneStep agents) (ddAppend acc a i) = _
      exact ih hxs (ddAppend acc a i)
    | none => rw [hcl] at hx; simp at hx

/-- When every matched edge classifies to an agent, the cloning decode
succeeds with the folded `defaultdict`. -/
theorem cloningDecode_eq (agents : List ℕ) (M : List (CNode × CNode))
    (h : ∀ e ∈ M, (classify agents e).isSome) :
    cloningDecode agents M = Except.ok (cloningFold agents M) := by
  unfold cloningDecode cloningFold
  exact cloneStep_fold agents M h []

/-- An unclassifiable matched edge makes the cloning decode raise
`ValueError`, wherever it sits in the iteration. -/
theorem cloningDecode_error (agents : List ℕ) (M : List (CNode × CNode))
    (h : ∃ e ∈ M, classify agents e = none) :
    cloningDecode agents M
      = Except.error (PyError.valueError "Cannot find an agent in edge") := by
  unfold cloningDecode
  suffices hGen : ∀ acc, M.foldlM (cloneStep agents) acc
      = Except.error (PyError.valueError "Cannot find an agent in edge") from hGen []
  induction M with
  | nil => simp at h
  | cons x xs ih =>
    intro acc
    match hcl : classify agents x with
    | some (a, i) =>
      have hxs : ∃ e ∈ xs, classify agents e = none := by
        obtain ⟨e, he, hne⟩ := h
        rcases List.mem_cons.mp he with rfl | hmem
        · rw [hcl] at hne; exact absurd hne (by simp)
        · exact ⟨e, hmem, hne⟩
      have hstep : cloneStep agents acc x = Except.ok (ddAppend acc a i) := by
        simp [cloneStep, hcl]
      rw [List.foldlM_cons, hstep]
      exact ih hxs (ddAppend acc a i)
    | none =>
      have hstep : cloneStep agents acc x
          = Except.error (PyError.valueError "Cannot find an agent in edge") := by
        simp [cloneStep, hcl]
      rw [List.foldlM_cons, hstep]
      rfl

theorem flowStep_fold_ok (I : MInput) (f : Flow) (a : ℕ) (l acc r : List ℕ)
    (h : l.foldlM (flowStep I f a) acc = Except.ok r) :
    r = acc ++ l.filter (fun i => flowAt I f a i = 1) := by
  induction l generalizing acc with
  | nil =>
    simp only [List.foldlM_nil] at h
    have h' : (Except.ok acc : Except PyError (List ℕ)) = Except.ok r := h
    injection h' with h''
    simp [h'']
  | cons x xs ih =>
    rw [List.foldlM_cons] at h
    by_cases h1 : flowAt I f a x = 1
    · rw [show flowStep I f a acc x = Except.ok (acc ++ [x]) from by
        simp [flowStep, h1]] at h
      have h' : xs.foldlM (flowStep I f a) (acc ++ [x]) = Except.ok r := h
      rw [ih (acc ++ [x]) h']
      simp [List.filter_cons, h1]
    · by_cases h0 : flowAt I f a x = 0
      · rw [show flowStep I f a acc x = Except.ok acc from by
          simp [flowStep, h0, h1]] at h
        have h' : xs.foldlM (flowStep I f a) acc = Except.ok r := h
        rw [ih acc h']
        simp [List.filter_cons, h0, h1]
      · rw [show flowStep I f a acc x
            = Except.error (PyError.nameError "name itemflow is not defined") from by
          simp [flowStep, h0, h1]] at h
        have h' : (Except.error (PyError.nameError "name itemflow is not defined")
            : Except PyError (List ℕ)) = Except.ok r := h
        simp at h'

theorem decodeAgent_ok (I : MInput) (f : Flow) (a : ℕ) (b : List ℕ)
    (h : decodeAgent I f a = Except.ok b) : b = flowBundle I f a := by
  unfold decodeAgent at h
  cases hfold : I.items.foldlM (flowStep I f a) [] with
  | ok r =>
    rw [hfold] at h
    have h' : Except.ok (pySort r) = Except.ok b := h
    injection h' with h''
    rw [← h'', flowStep_fold_ok I f a I.items [] r hfold]
    simp [flowBundle]
  | error e =>
    rw [hfold] at h
    exact absurd h (by simp [Except.map])

theorem networkFlow_fold_ok (I : MInput) (f : Flow) (l : List ℕ)
    (acc m : List (ℕ × List ℕ))
    (h : l.foldlM
        (fun acc a => (decodeAgent I f a).map (fun b => acc ++ [(a, b)])) acc
      = Except.ok m) :
    m = acc ++ l.map (fun a => (a, flowBundle I f a)) := by
  induction l generalizing acc with
  | nil =>
    simp only [List.foldlM_nil] at h
    have h' : (Except.ok acc : Except PyError (List (ℕ × List ℕ))) = Except.ok m := h
    injection h' with h''
    simp [h'']
  | cons x xs ih =>
    rw [List.foldlM_cons] at h
    cases hd : decodeAgent I f x with
    | ok b =>
      rw [hd] at h
      have h' : xs.foldlM
          (fun acc a => (decodeAgent I f a).map (fun b => acc ++ [(a, b)]))
          (acc ++ [(x, b)]) = Except.ok m := h
      rw [ih (acc ++ [(x, b)]) h', decodeAgent_ok I f x b hd]
      simp
    | error e =>
      rw [hd] at h
      have h' : (Except.error e : Except PyError (List (ℕ × List ℕ)))
          = Except.ok m := h
      simp at h'

/-- Whenever the flow engine succeeds, the returned mapping is exactly
`flowResult`: each agent in iteration order with its sorted unit-flow items. -/
theorem networkFlowMatching_ok (I : MInput) (f : Flow) (m : List (ℕ × List ℕ))
    (h : networkFlowMatching I f = Except.ok m) : m = flowResult I f := by
  unfold networkFlowMatching at h
  have := networkFlow_fold_ok I f I.agents [] m h
  simpa [flowResult] using this

/-! ## `defaultdict` bookkeeping -/

theorem ddGet_ddAppend (m : List (ℕ × List ℕ)) (k : ℕ) (x : ℕ) (q : ℕ) :
    ddGet (ddAppend m k x) q = if k = q then ddGet m q ++ [x] else ddGet m q := by
  induction m with
  | nil => by_cases h : k = q <;> simp [ddAppend, ddGet, h]
  | cons p rest ih =>
    obtain ⟨k0, l⟩ := p
    by_cases h1 : k0 = k <;> by_cases h2 : k0 = q <;> by_cases h3 : k = q <;>
      simp_all [ddAppend, ddGet]

theorem ddGet_foldl (agents : List ℕ) (M : List (CNode × CNode))
    (acc : List (ℕ × List ℕ)) (a : ℕ) :
    ddGet (M.foldl (ddStep agents) acc) a = ddGet acc a ++ bundleOf agents M a := by
  induction M generalizing acc with
  | nil => simp [bundleOf]
  | cons e es ih =>
    rw [List.foldl_cons]
    cases hcl : classify agents e with
    | some p =>
      obtain ⟨pa, pi⟩ := p
      rw [show ddStep agents acc e = ddAppend acc pa pi from by simp [ddStep, hcl]]
      rw [ih (ddAppend acc pa pi), ddGet_ddAppend]
      by_cases h : pa = a
      · simp [bundleOf, List.filterMap_cons, hcl, h]
      · simp [bundleOf, List.filterMap_cons, hcl, h]
    | none =>
      rw [show ddStep agents acc e = acc from by simp [ddStep, hcl]]
      rw [ih acc]
      simp [bundleOf, List.filterMap_cons, hcl]

/-- The agent-`a` bundle of the successful cloning decode is `bundleOf`. -/
theorem cloningFold_get (agents : List ℕ) (M : List (CNode × CNode)) (a : ℕ) :
    ddGet (cloningFold agents M) a = bundleOf agents M a := by
  unfold cloningFold
  rw [ddGet_foldl]
  simp [ddGet]

theorem bundlesTotal_ddAppend (I : MInput) (m : List (ℕ × List ℕ)) (a i : ℕ) :
    bundlesTotal I (ddAppend m a i)
      = bundlesTotal I m + I.value a i * I.ent a := by
  induction m with
  | nil => simp [ddAppend, bundlesTotal]
  | cons p rest ih =>
    obtain ⟨k, l⟩ := p
    by_cases h : k = a
    · subst h
      simp [ddAppend, bundlesTotal, List.map_append]
      ring
    · simp [ddAppend, h, bundlesTotal] at *
      rw [ih]
      ring

/-- The total entitlement-weighted value of the cloning decode equals the sum
over matched edges of the classified pair's weighted value. -/
theorem bundlesTotal_foldl (I : MInput) (M : List (CNode × CNode))
    (acc : List (ℕ × List ℕ)) :
    bundlesTotal I (M.foldl (ddStep I.agents) acc)
      = bundlesTotal I acc + (M.map (fun e =>
          match classify I.agents e with
          | some p => I.value p.1 p.2 * I.ent p.1
          | none => 0)).sum := by
  induction M generalizing acc with
  | nil => simp
  | cons e es ih =>
    rw [List.foldl_cons]
    cases hcl : classify I.agents e with
    | some p =>
      obtain ⟨pa, pi⟩ := p
      rw [show ddStep I.agents acc e = ddAppend acc pa pi from by simp [ddStep, hcl]]
      rw [ih (ddAppend acc pa pi), bundlesTotal_ddAppend]
      simp [hcl]
      ring
    | none =>
      rw [show ddStep I.agents acc e = acc from by simp [ddStep, hcl]]
      rw [ih acc]
      simp [hcl]

/-! ## Congruence of the flow engine in the valuation table -/

theorem flowAt_congr (I I' : MInput) (f : Flow) (a i : ℕ)
    (hag : I.agents = I'.agents) (hit : I.items = I'.items)
    (hneg : I.allowNeg = I'.allowNeg) (hv : I.value a i = I'.value a i) :
    flowAt I f a i = flowAt I' f a i := by
  unfold flowAt MInput.aiPresent
  simp only [hag, hit, hneg, hv]

theorem foldlM_flowStep_congr (I I' : MInput) (f : Flow) (a : ℕ) (l acc : List ℕ)
    (hfa : ∀ i ∈ l, flowAt I f a i = flowAt I' f a i) :
    l.foldlM (flowStep I f a) acc = l.foldlM (flowStep I' f a) acc := by
  induction l generalizing acc with
  | nil => rfl
  | cons x xs ih =>
    have hx : flowStep I f a acc x = flowStep I' f a acc x := by
      unfold flowStep
      rw [hfa x (by simp)]
    have hxs : ∀ i ∈ xs, flowAt I f a i = flowAt I' f a i :=
      fun i hi => hfa i (by simp [hi])
    rw [List.foldlM_cons, List.foldlM_cons, hx]
    cases h : flowStep I' f a acc x with
    | ok v =>
      show xs.foldlM (flowStep I f a) v = xs.foldlM (flowStep I' f a) v
      exact ih v hxs
    | error e => rfl

theorem decodeAgent_congr (I I' : MInput) (f : Flow) (a : ℕ)
    (hit : I.items = I'.items)
    (hfa : ∀ i ∈ I.items, flowAt I f a i = flowAt I' f a i) :
    decodeAgent I f a = decodeAgent I' f a := by
  unfold decodeAgent
  rw [← hit, foldlM_flowStep_congr I I' f a I.items [] hfa]

theorem foldlM_decode_congr (I I' : MInput) (f : Flow) (l : List ℕ)
    (acc : List (ℕ × List ℕ))
    (hd : ∀ a ∈ l, decodeAgent I f a = decodeAgent I' f a) :
    l.foldlM (fun acc a => (decodeAgent I f a).map (fun b => acc ++ [(a, b)])) acc
      = l.foldlM (fun acc a => (decodeAgent I' f a).map (fun b => acc ++ [(a, b)])) acc := by
  induction l generalizing acc with
  | nil => rfl
  | cons x xs ih =>
    have hx := hd x (by simp)
    have hxs : ∀ a ∈ xs, decodeAgent I f a = decodeAgent I' f a :=
      fun a ha => hd a (by simp [ha])
    rw [List.foldlM_cons, List.foldlM_cons, hx]
    cases h : (decodeAgent I' f x).map (fun b => acc ++ [(x, b)]) with
    | ok v =>
      show xs.foldlM _ v = xs.foldlM _ v
      exact ih v hxs
    | error e => rfl

/-- The flow engine reads the value function only on `agents × items`:
two inputs identical except for the value function, agreeing there, produce
identical results for every solver answer. -/
theorem networkFlowMatching_congr (I I' : MInput) (f : Flow)
    (hag : I.agents = I'.agents) (hit : I.items = I'.items)
    (hneg : I.allowNeg = I'.allowNeg)
    (hval : ∀ a ∈ I.agents, ∀ i ∈ I.items, I.value a i = I'.value a i) :
    networkFlowMatching I f = networkFlowMatching I' f := by
  unfold networkFlowMatching
  rw [← hag]
  apply foldlM_decode_congr
  intro a ha
  exact decodeAgent_congr I I' f a hit
    (fun i hi => flowAt_congr I I' f a i hag hit hneg (hval a ha i hi))

/-! ## Structure of the cloned graph -/

theorem flatMap_singleton_eq_map {α β : Type} (f : α → β) (l : List α) :
    l.flatMap (fun x => [f x]) = l.map f := by
  induction l with
  | nil => rfl
  | cons x xs ih => simp only [List.flatMap_cons, ih, List.map_cons]; rfl

theorem cloneEdgesFor_eq (ca ci a i : ℕ) :
    cloneEdgesFor ca ci a i
      = (nodesFor ca a).flatMap (fun u => (nodesFor ci i).map (fun w => (u, w))) := by
  unfold cloneEdgesFor nodesFor
  by_cases h1 : ci = 1 <;> by_cases h2 : ca = 1
  · simp [h1, h2]
  · simp [h1, h2, List.flatMap_map, flatMap_singleton_eq_map]
  · simp [h1, h2, List.map_map]
  · simp only [h1, h2, if_neg, and_false, false_and, if_false, List.flatMap_map,
      List.map_map]
    rfl

theorem mem_nodesFor {c x : ℕ} {n : CNode} (h : n ∈ nodesFor c x) :
    stripNode n = x := by
  unfold nodesFor at h
  by_cases hc : c = 1
  · rw [if_pos hc] at h
    simp at h
    rw [h]
    rfl
  · rw [if_neg hc] at h
    rcases List.mem_map.mp h with ⟨k, _, rfl⟩
    rfl

theorem nodesFor_length (c x : ℕ) : (nodesFor c x).length = c := by
  unfold nodesFor
  by_cases hc : c = 1 <;> simp [hc]

theorem mem_cloneEdges {J : MInput} {p : (CNode × CNode) × ℤ}
    (hp : p ∈ cloneEdges J) :
    ∃ a ∈ J.agents, ∃ i ∈ J.items,
      p.1.1 ∈ nodesFor (J.agentCap a) a ∧ p.1.2 ∈ nodesFor (J.itemCap i) i ∧
      p.2 = J.value a i * J.ent a := by
  unfold cloneEdges at hp
  rcases List.mem_flatMap.mp hp with ⟨a, ha, hp1⟩
  rcases List.mem_flatMap.mp hp1 with ⟨i, hi, hp2⟩
  rcases List.mem_map.mp hp2 with ⟨e, he, rfl⟩
  rw [cloneEdgesFor_eq] at he
  rcases List.mem_flatMap.mp he with ⟨u, hu, he2⟩
  rcases List.mem_map.mp he2 with ⟨w, hw, rfl⟩
  exact ⟨a, ha, i, hi, hu, hw, rfl⟩

/-- Every matched edge of a matching on the cloned graph of a
namespace-disjoint input classifies to its generating `(agent, item)` pair,
whatever its orientation, and its two endpoints are clone nodes of that agent
and that item. -/
theorem edge_analysis {J : MInput} {M : List (CNode × CNode)}
    (hM : IsMatchingList M (cloneEdges J))
    (hdisj : ∀ x ∈ J.agents, x ∉ J.items)
    {e : CNode × CNode} (he : e ∈ M) :
    ∃ a i, a ∈ J.agents ∧ i ∈ J.items ∧
      classify J.agents e = some (a, i) ∧
      agentSideNode J.agents e ∈ nodesFor (J.agentCap a) a ∧
      itemSideNode J.agents e ∈ nodesFor (J.itemCap i) i := by
  rcases hM.1 e he with ⟨p, hpE, hsame⟩
  rcases mem_cloneEdges hpE with ⟨a, ha, i, hi, h1, h2, _⟩
  have hsa : stripNode p.1.1 = a := mem_nodesFor h1
  have hsi : stripNode p.1.2 = i := mem_nodesFor h2
  have hiA : i ∉ J.agents := fun hmem => hdisj i hmem hi
  rcases hsame with heq | heq
  · subst heq
    have hin : stripNode p.1.1 ∈ J.agents := by rw [hsa]; exact ha
    refine ⟨a, i, ha, hi, ?_, ?_, ?_⟩
    · unfold classify
      rw [if_pos hin, hsa, hsi]
    · unfold agentSideNode
      rw [if_pos hin]
      exact h1
    · unfold itemSideNode
      rw [if_pos hin]
      exact h2
  · have h1e : e.1 = p.1.2 := congrArg Prod.fst heq
    have h2e : e.2 = p.1.1 := congrArg Prod.snd heq
    have hout : stripNode e.1 ∉ J.agents := by rw [h1e, hsi]; exact hiA
    have hin : stripNode e.2 ∈ J.agents := by rw [h2e, hsa]; exact ha
    refine ⟨a, i, ha, hi, ?_, ?_, ?_⟩
    · unfold classify
      rw [if_neg hout, if_pos hin, h1e, h2e, hsa, hsi]
    · unfold agentSideNode
      rw [if_neg hout, h2e]
      exact h1
    · unfold itemSideNode
      rw [if_neg hout, h1e]
      exact h2

theorem classify_isSome_of_matching {J : MInput} {M : List (CNode × CNode)}
    (hM : IsMatchingList M (cloneEdges J))
    (hdisj : ∀ x ∈ J.agents, x ∉ J.items) :
    ∀ e ∈ M, (classify J.agents e).isSome := by
  intro e he
  rcases edge_analysis hM hdisj he with ⟨a, i, _, _, hcl, _, _⟩
  rw [hcl]
  rfl

theorem classify_agent_mem {agents : List ℕ} {e : CNode × CNode} {a i : ℕ}
    (h : classify agents e = some (a, i)) : a ∈ agents := by
  unfold classify at h
  by_cases h1 : stripNode e.1 ∈ agents
  · rw [if_pos h1] at h
    injection h with h'
    have : stripNode e.1 = a := congrArg Prod.fst h'
    rw [← this]
    exact h1
  · rw [if_neg h1] at h
    by_cases h2 : stripNode e.2 ∈ agents
    · rw [if_pos h2] at h
      injection h with h'
      have : stripNode e.2 = a := congrArg Prod.fst h'
      rw [← this]
      exact h2
    · rw [if_neg h2] at h
      cases h

/-! ## Matching-side counting -/

/-- In a matching, the edges selected by any predicate inject — via a choice
of endpoint — into any list containing those endpoints. -/
theorem length_filter_le_of_side (M : List (CNode × CNode))
    (hnd : (listNodes M).Nodup) (p : CNode × CNode → Bool)
    (σ : CNode × CNode → CNode) (T : List CNode)
    (hσ : ∀ e ∈ M, p e = true → (σ e = e.1 ∨ σ e = e.2) ∧ σ e ∈ T) :
    (M.filter p).length ≤ T.length := by
  have hpw : M.Pairwise
      (fun e1 e2 => ([e1.1, e1.2] : List CNode).Disjoint [e2.1, e2.2]) := by
    have h := List.nodup_flatMap.mp hnd
    exact h.2
  have hL : (M.filter p).Pairwise (fun e1 e2 => σ e1 ≠ σ e2) := by
    have hpw2 : (M.filter p).Pairwise
        (fun e1 e2 => ([e1.1, e1.2] : List CNode).Disjoint [e2.1, e2.2]) :=
      hpw.sublist (List.filter_sublist M)
    refine List.Pairwise.imp_of_mem ?_ hpw2
    intro e1 e2 h1 h2 hd heq
    obtain ⟨hor1, _⟩ := hσ e1 (List.mem_of_mem_filter h1) (List.of_mem_filter h1)
    obtain ⟨hor2, _⟩ := hσ e2 (List.mem_of_mem_filter h2) (List.of_mem_filter h2)
    have hm1 : σ e1 ∈ ([e1.1, e1.2] : List CNode) := by
      rcases hor1 with h | h <;> simp [h]
    have hm2 : σ e1 ∈ ([e2.1, e2.2] : List CNode) := by
      rw [heq]
      rcases hor2 with h | h <;> simp [h]
    exact hd hm1 hm2
  have hALnodup : ((M.filter p).map σ).Nodup := List.pairwise_map.mpr hL
  have hsubT : ∀ n ∈ (M.filter p).map σ, n ∈ T := by
    intro n hn
    rcases List.mem_map.mp hn with ⟨e, he, rfl⟩
    exact (hσ e (List.mem_of_mem_filter he) (List.of_mem_filter he)).2
  calc (M.filter p).length
      = ((M.filter p).map σ).length := (List.length_map _ _).symm
    _ = ((M.filter p).map σ).toFinset.card :=
        (List.toFinset_card_of_nodup hALnodup).symm
    _ ≤ T.toFinset.card := by
        apply Finset.card_le_card
        intro n hn
        exact List.mem_toFinset.mpr (hsubT n (List.mem_toFinset.mp hn))
    _ ≤ T.length := T.toFinset_card_le

theorem filter_one_length_le_sum (g : ℕ → ℕ) (l : List ℕ) :
    (l.filter (fun i => g i = 1)).length ≤ (l.map g).sum := by
  induction l with
  | nil => simp
  | cons x xs ih =>
    by_cases h : g x = 1 <;> simp [List.filter_cons, h] <;> omega

theorem length_filter_mono {α : Type} (l : List α) (p q : α → Bool)
    (h : ∀ x ∈ l, p x = true → q x = true) :
    (l.filter p).length ≤ (l.filter q).length := by
  induction l with
  | nil => simp
  | cons x xs ih =>
    have hxs : ∀ y ∈ xs, p y = true → q y = true := fun y hy => h y (by simp [hy])
    rw [List.filter_cons, List.filter_cons]
    by_cases hp : p x = true
    · rw [if_pos hp, if_pos (h x (by simp) hp)]
      simpa using ih hxs
    · rw [if_neg hp]
      by_cases hq : q x = true
      · rw [if_pos hq]
        exact le_trans (ih hxs) (by simp)
      · rw [if_neg hq]
        exact ih hxs

theorem sum_map_add (l : List ℕ) (f g : ℕ → ℕ) :
    (l.map (fun a => f a + g a)).sum = (l.map f).sum + (l.map g).sum := by
  induction l with
  | nil => simp
  | cons x xs ih => simp [ih]; omega

theorem sum_indicator_eq_count (l : List ℕ) (x : ℕ) :
    (l.map (fun a => if x = a then 1 else 0)).sum = l.count x := by
  induction l with
  | nil => rfl
  | cons y ys ih =>
    rw [List.map_cons, List.sum_cons, ih, List.count_cons]
    by_cases h : x = y <;> simp [h] <;> omega

theorem bundleOf_length (agents : List ℕ) (M : List (CNode × CNode)) (a : ℕ) :
    (bundleOf agents M a).length
      = (M.filter (fun e => (classify agents e).map Prod.fst = some a)).length := by
  induction M with
  | nil => rfl
  | cons e es ih =>
    unfold bundleOf at *
    rw [List.filterMap_cons, List.filter_cons]
    cases hcl : classify agents e with
    | some p =>
      obtain ⟨a', i⟩ := p
      by_cases h : a' = a
      · subst h
        simp [hcl, ih]
      · simp [hcl, h, ih]
    | none => simp [hcl, ih]

theorem count_bundleOf (agents : List ℕ) (M : List (CNode × CNode)) (a i : ℕ) :
    (bundleOf agents M a).count i
      = (M.filter (fun e => classify agents e = some (a, i))).length := by
  induction M with
  | nil => rfl
  | cons e es ih =>
    unfold bundleOf at *
    rw [List.filterMap_cons, List.filter_cons]
    cases hcl : classify agents e with
    | some p =>
      obtain ⟨a', i'⟩ := p
      by_cases h : a' = a
      · subst h
        by_cases h2 : i' = i
        · subst h2
          simp [hcl, ih, List.count_cons]
        · simp [hcl, h2, ih, List.count_cons]
      · have hne : ¬ (classify agents e = some (a, i)) := by
          rw [hcl]
          intro hc
          injection hc with hc'
          exact h (congrArg Prod.fst hc')
        simp [hcl, h, hne, ih]
    | none => simp [hcl, ih]

theorem head_sum (agents : List ℕ) (hA : agents.Nodup) (e : CNode × CNode) (i : ℕ) :
    (agents.map (fun a => if classify agents e = some (a, i) then 1 else 0)).sum
      = if (classify agents e).map Prod.snd = some i then 1 else 0 := by
  cases hcl : classify agents e with
  | none => simp [hcl]
  | some p =>
    obtain ⟨a0, i0⟩ := p
    have ha0 : a0 ∈ agents := classify_agent_mem hcl
    by_cases h2 : i0 = i
    · subst h2
      simp only [hcl, Option.map_some, Option.some.injEq, Prod.mk.injEq, and_true,
        if_true]
      rw [sum_indicator_eq_count agents a0, List.count_eq_one_of_mem hA ha0]
      simp
    · simp only [hcl, Option.map_some, Option.some.injEq, Prod.mk.injEq]
      rw [show (agents.map (fun a => if a0 = a ∧ i0 = i then 1 else 0))
            = agents.map (fun _ => 0) from
          List.map_congr_left (fun a _ => by simp [h2])]
      simp [h2]

theorem sum_filter_fiber (agents : List ℕ) (hA : agents.Nodup)
    (M : List (CNode × CNode)) (i : ℕ) :
    (agents.map (fun a =>
      (M.filter (fun e => classify agents e = some (a, i))).length)).sum
      = (M.filter (fun e => (classify agents e).map Prod.snd = some i)).length := by
  induction M with
  | nil => simp
  | cons e es ih =>
    have hstep : agents.map (fun a =>
        (List.filter (fun e' => classify agents e' = some (a, i)) (e :: es)).length)
        = agents.map (fun a =>
          (if classify agents e = some (a, i) then 1 else 0)
            + (List.filter (fun e' => classify agents e' = some (a, i)) es).length) := by
      apply List.map_congr_left
      intro a _
      rw [List.filter_cons]
      by_cases h : classify agents e = some (a, i) <;> simp [h] <;> omega
    rw [hstep, sum_map_add, head_sum agents hA e i, ih, List.filter_cons]
    by_cases h : (classify agents e).map Prod.snd = some i <;> simp [h] <;> omega

theorem filter_mem_le_sum_count (agents : List ℕ) (bundle : ℕ → List ℕ) (i : ℕ) :
    (agents.filter (fun a => i ∈ bundle a)).length
      ≤ (agents.map (fun a => (bundle a).count i)).sum := by
  induction agents with
  | nil => simp
  | cons a as ih =>
    rw [List.filter_cons, List.map_cons, List.sum_cons]
    by_cases h : i ∈ bundle a
    · have hc : 1 ≤ (bundle a).count i := List.count_pos_iff.mpr h
      rw [if_pos (by simpa using h)]
      simp only [List.length_cons]
      omega
    · rw [if_neg (by simpa using h)]
      omega

/-! ## Claims -/

/-- C7: In the flow engine with `allow_negative_value_assignments` false (the
default), no `(agent, item)` pair with `value(agent, item) < 0` appears in the
returned assignment: the agent-to-item edge for such a pair is omitted from
the flow network entirely, so the decoded flow on it reads 0 and the pair can
never be assigned. -/
theorem claim7_negative_value_exclusion (I : MInput) (f : Flow)
    (m : List (ℕ × List ℕ)) (a : ℕ) (b : List ℕ) (i : ℕ)
    (hneg : I.allowNeg = false)
    (hok : networkFlowMatching I f = Except.ok m)
    (hab : (a, b) ∈ m) (hi : i ∈ b) :
    0 ≤ I.value a i := by
  have hm := networkFlowMatching_ok I f m hok
  subst hm
  have hb : b = flowBundle I f a := by
    rcases List.mem_map.mp hab with ⟨a', _, heq⟩
    have h1 : a' = a := congrArg Prod.fst heq
    have h2 : flowBundle I f a' = b := congrArg Prod.snd heq
    rw [← h2, h1]
  subst hb
  have hmem : i ∈ I.items.filter (fun i => flowAt I f a i = 1) :=
    (List.perm_insertionSort (· ≤ ·)
      (I.items.filter (fun i => flowAt I f a i = 1))).mem_iff.mp hi
  have hf : flowAt I f a i = 1 := by
    have := (List.mem_filter.mp hmem).2
    exact of_decide_eq_true this
  by_cases hp : I.aiPresent a i
  · rcases hp.2.2 with hAllow | hval
    · rw [hneg] at hAllow; cases hAllow
    · exact hval
  · rw [flowAt, if_neg hp] at hf
    cases hf

/-- C7 witness: on the concrete instance `I34` with the correct unit flow, the
flow engine returns agent 0 the bundle `[1]`, and the theorem applies. -/
theorem claim7_witness :
    I34.allowNeg = false ∧
    networkFlowMatching I34 f4 = Except.ok [(0, [1])] ∧
    0 ≤ I34.value 0 1 := by
  refine ⟨rfl, by rfl, ?_⟩
  exact claim7_negative_value_exclusion I34 f4 [(0, [1])] 0 [1] 1 rfl
    (by rfl) (by decide) (by decide)

/-- C8: when the external flow primitive reports a flow value other than 0 or
1 on an agent-to-item edge (here 2, on `I8`'s unit-capacity edge), the decode
does abort, but by raising `NameError` — the `raise ValueError(f"non-binary
flow in network: ... flow={itemflow}...")` statement at
`graph_utils.py:85` references the undefined name `itemflow` (the local
variable is `agent_item_flow`), so the f-string evaluation raises a generic
`NameError` before the intended `ValueError` is ever constructed. -/
theorem claim8_nonbinary_flow_raises_nameerror :
    networkFlowMatching I8 f8
      = Except.error (PyError.nameError "name itemflow is not defined") := by
  rfl

/-- C5 counterexample: the valuation table `V5` references item `7`, which is
absent from the item-capacity mapping, yet the facade performs no validation:
with a valid solver flow the call returns a result instead of failing with an
InvalidInput error before graph construction. -/
theorem claim5_counterexample :
    lookupList itemCaps5 7 = none ∧
    lookupList V5 0 = some [(1, 3), (7, 9)] ∧
    IsValidFlow (facadeInput itemCaps5 agentCaps5 V5 (fun _ => 1)) f5 ∧
    many_to_many_matching itemCaps5 agentCaps5 V5 (fun _ => 1) f5
      = Except.ok [(0, [1])] := by
  exact ⟨rfl, rfl, by decide, by rfl⟩

/-- C5 amended: the facade performs no input validation at all.  Its
iteration ranges only over the capacity mappings' keys, so identifiers
referenced by the value table but missing from the capacity mappings are
silently ignored: two valuation tables that agree on the capacity keys
produce identical results for every solver answer. -/
theorem claim5_amended_no_validation (itemCaps agentCaps : List (ℕ × ℕ))
    (V V' : List (ℕ × List (ℕ × ℤ))) (ent : ℕ → ℤ) (f : Flow)
    (hagree : ∀ a ∈ agentCaps.map Prod.fst, ∀ i ∈ itemCaps.map Prod.fst,
      (lookupList V a).bind (fun row => lookupList row i)
        = (lookupList V' a).bind (fun row => lookupList row i)) :
    many_to_many_matching itemCaps agentCaps V ent f
      = many_to_many_matching itemCaps agentCaps V' ent f := by
  unfold many_to_many_matching
  have hcov : valuationsCover (agentCaps.map Prod.fst) (itemCaps.map Prod.fst) V
      ↔ valuationsCover (agentCaps.map Prod.fst) (itemCaps.map Prod.fst) V' := by
    unfold valuationsCover
    constructor
    · intro h a ha i hi
      rw [← hagree a ha i hi]
      exact h a ha i hi
    · intro h a ha i hi
      rw [hagree a ha i hi]
      exact h a ha i hi
  by_cases hc : valuationsCover (agentCaps.map Prod.fst) (itemCaps.map Prod.fst) V
  · rw [if_pos hc, if_pos (hcov.mp hc)]
    apply networkFlowMatching_congr
    · rfl
    · rfl
    · rfl
    · intro a ha i hi
      show ((lookupList V a).bind (fun row => lookupList row i)).getD 0
          = ((lookupList V' a).bind (fun row => lookupList row i)).getD 0
      rw [hagree a ha i hi]
  · rw [if_neg hc, if_neg (fun h => hc (hcov.mpr h))]

/-- C5 amended witness: dropping the dangling `(7, 9)` entry from the
valuation table does not change the facade's result. -/
theorem claim5_amended_witness :
    many_to_many_matching itemCaps5 agentCaps5 V5 (fun _ => 1) f5
      = many_to_many_matching itemCaps5 agentCaps5 V5' (fun _ => 1) f5 :=
  claim5_amended_no_validation itemCaps5 agentCaps5 V5 V5' (fun _ => 1) f5
    (by decide)

/-- C6 counterexample: on `I6` the maximum-weight matching of the cloned
graph is empty (the only edge has weight −3), the cloning engine returns the
empty mapping, and agent `0` — an agent of the input — is not among its keys. -/
theorem claim6_counterexample :
    IsMaxWeightMatching ([] : List (CNode × CNode)) I6 ∧
    0 ∈ I6.agents ∧
    nodeCloningMatching I6 [] = Except.ok [] ∧
    0 ∉ ([] : List (ℕ × List ℕ)).map Prod.fst := by
  exact ⟨by decide, by decide, by rfl, by decide⟩

/-- C6 amended: the key/order guarantees hold for the flow engine only —
whenever it succeeds, the returned mapping's keys are exactly the input's
agents (in iteration order) and every bundle is sorted ascending.  The
cloning engine returns a `defaultdict` that omits agents not incident to a
matched edge (counterexample above) and appends in matching order. -/
theorem claim6_amended_flow_keys_sorted (I : MInput) (f : Flow)
    (m : List (ℕ × List ℕ)) (hok : networkFlowMatching I f = Except.ok m) :
    m.map Prod.fst = I.agents ∧ ∀ p ∈ m, List.Sorted (· ≤ ·) p.2 := by
  have hm := networkFlowMatching_ok I f m hok
  subst hm
  constructor
  · rw [flowResult, List.map_map]
    exact List.map_id' I.agents
  · intro p hp
    rcases List.mem_map.mp hp with ⟨a, _, heq⟩
    have h2 : flowBundle I f a = p.2 := congrArg Prod.snd heq
    rw [← h2]
    exact List.sorted_insertionSort _ _

/-- C6 amended witness: on `I1` with its min-cost max flow the returned keys
are `[0, 1]` and both bundles are sorted. -/
theorem claim6_amended_witness :
    networkFlowMatching I1 f1 = Except.ok [(0, [2, 3]), (1, [2])] ∧
    [(0, [2, 3]), (1, [2])].map Prod.fst = I1.agents := by
  refine ⟨by rfl, ?_⟩
  exact (claim6_amended_flow_keys_sorted I1 f1 [(0, [2, 3]), (1, [2])] (by rfl)).1

/-- C9 counterexample: in `I9` the agent and item identifier sets overlap
(identifier `1` is both), yet the cloning engine performs no pre-matching
collision check: fed the unique maximum-weight matching (in the flipped
orientation a set iteration may produce), it returns successfully — and
silently assigns agent identifier `0` as an "item" to agent `1` — instead of
failing before the matching primitive is run. -/
theorem claim9_counterexample :
    (1 ∈ I9.agents ∧ 1 ∈ I9.items) ∧
    IsMaxWeightMatching M9 I9 ∧
    nodeCloningMatching I9 M9 = Except.ok [(1, [0])] := by
  exact ⟨by decide, by decide, by rfl⟩

/-- C9 amended: the engine has no pre-matching namespace-collision check
(counterexample above; it can silently misassign roles when identifiers
collide); what does hold is the second half of the claim — a matched edge in
which neither endpoint, after stripping the clone index, is recognized as an
agent makes the decode fail with `ValueError` rather than guess a role. -/
theorem claim9_amended_unrecognized_edge_fails (I : MInput)
    (M : List (CNode × CNode)) (e : CNode × CNode) (he : e ∈ M)
    (h1 : stripNode e.1 ∉ I.agents) (h2 : stripNode e.2 ∉ I.agents) :
    nodeCloningMatching I M
      = Except.error (PyError.valueError "Cannot find an agent in edge") := by
  apply cloningDecode_error
  exact ⟨e, he, by simp [classify, h1, h2]⟩

/-- C9 amended witness: an edge between two non-agent identifiers makes the
cloning decode raise. -/
theorem claim9_amended_witness :
    nodeCloningMatching I6 [(CNode.plain 5, CNode.plain 6)]
      = Except.error (PyError.valueError "Cannot find an agent in edge") :=
  claim9_amended_unrecognized_edge_fails I6 [(CNode.plain 5, CNode.plain 6)]
    (CNode.plain 5, CNode.plain 6) (by decide) (by decide) (by decide)

/-- C3 counterexample: on `I34` (agent 0 with capacity 2, item 1 with
capacity 2, value 5) the matching `M3` of both parallel clone-pairs is a
maximum-weight matching of the cloned graph, and the cloning engine decodes
it to the bundle `[1, 1]` — the same item assigned twice to the same agent. -/
theorem claim3_counterexample :
    IsMaxWeightMatching M3 I34 ∧
    nodeCloningMatching I34 M3 = Except.ok [(0, [1, 1])] ∧
    ¬ ([1, 1] : List ℕ).Nodup := by
  exact ⟨by decide, by rfl, by decide⟩

/-- C3 amended: the no-duplicates invariant holds for the flow engine (each
`agent → item` edge has capacity 1 and is decoded at most once), but not for
the cloning engine, which can assign the same `(agent, item)` pair once per
distinct matched clone-pair (counterexample above). -/
theorem claim3_amended_flow_no_duplicates (I : MInput) (f : Flow)
    (m : List (ℕ × List ℕ)) (hItems : I.items.Nodup)
    (hok : networkFlowMatching I f = Except.ok m) :
    ∀ p ∈ m, p.2.Nodup := by
  have hm := networkFlowMatching_ok I f m hok
  subst hm
  intro p hp
  rcases List.mem_map.mp hp with ⟨a, _, heq⟩
  have h2 : flowBundle I f a = p.2 := congrArg Prod.snd heq
  rw [← h2]
  have hf : (I.items.filter (fun i => flowAt I f a i = 1)).Nodup :=
    hItems.filter _
  exact ((List.perm_insertionSort _ _).nodup_iff).mpr hf

/-- C3 amended witness: on `I1` with its min-cost max flow every returned
bundle is duplicate-free. -/
theorem claim3_amended_witness :
    I1.items.Nodup ∧
    networkFlowMatching I1 f1 = Except.ok [(0, [2, 3]), (1, [2])] ∧
    ∀ p ∈ [((0 : ℕ), [2, 3]), (1, [(2 : ℕ)])], p.2.Nodup := by
  refine ⟨by decide, by rfl, ?_⟩
  exact claim3_amended_flow_no_duplicates I1 f1 [(0, [2, 3]), (1, [2])]
    (by decide) (by rfl)

/-- C2: both engines respect capacities.  Flow engine, given a feasible
solver flow: each agent's bundle length is at most its capacity, and each
item belongs to at most `item_capacity` bundles.  Cloning engine, given a
matching of the cloned graph and namespace-disjoint identifiers: the same two
bounds on the decoded `defaultdict`. -/
theorem claim2_capacity_respect (I : MInput) (f : Flow)
    (J : MInput) (M : List (CNode × CNode))
    (hf : IsValidFlow I f)
    (hJA : J.agents.Nodup)
    (hdisj : ∀ x ∈ J.agents, x ∉ J.items)
    (hM : IsMatchingList M (cloneEdges J)) :
    (networkFlowMatching I f = Except.ok (flowResult I f) ∧
      (∀ p ∈ flowResult I f, p.2.length ≤ I.agentCap p.1) ∧
      (∀ i ∈ I.items,
        ((flowResult I f).filter (fun p => i ∈ p.2)).length ≤ I.itemCap i)) ∧
    (nodeCloningMatching J M = Except.ok (cloningFold J.agents M) ∧
      (∀ a, (ddGet (cloningFold J.agents M) a).length ≤ J.agentCap a) ∧
      (∀ i,
        (J.agents.filter
          (fun a => i ∈ ddGet (cloningFold J.agents M) a)).length
          ≤ J.itemCap i)) := by
  obtain ⟨hcapA, hle, hcapI, hconsA, hconsI⟩ := hf
  refine ⟨⟨networkFlowMatching_eq I f hle, ?_, ?_⟩, ?_⟩
  · intro p hp
    rcases List.mem_map.mp hp with ⟨a, ha, rfl⟩
    show (flowBundle I f a).length ≤ I.agentCap a
    have hlen : (flowBundle I f a).length
        = (I.items.filter (fun i => flowAt I f a i = 1)).length :=
      (List.perm_insertionSort _ _).length_eq
    rw [hlen]
    calc (I.items.filter (fun i => flowAt I f a i = 1)).length
        ≤ (I.items.map (fun i => flowAt I f a i)).sum :=
          filter_one_length_le_sum _ _
      _ = f.sa a := hconsA a ha
      _ ≤ I.agentCap a := hcapA a ha
  · intro i hi
    have h1 : ((flowResult I f).filter (fun p => i ∈ p.2)).length
        = (I.agents.filter (fun a => i ∈ flowBundle I f a)).length := by
      rw [flowResult, List.filter_map, List.length_map]
      rfl
    rw [h1]
    calc (I.agents.filter (fun a => i ∈ flowBundle I f a)).length
        ≤ (I.agents.filter (fun a => flowAt I f a i = 1)).length := by
          apply length_filter_mono
          intro a _ hpa
          have hmem : i ∈ flowBundle I f a := of_decide_eq_true hpa
          have hmem2 : i ∈ I.items.filter (fun i => flowAt I f a i = 1) :=
            (List.perm_insertionSort _ _).mem_iff.mp hmem
          exact (List.mem_filter.mp hmem2).2
      _ ≤ (I.agents.map (fun a => flowAt I f a i)).sum :=
          filter_one_length_le_sum _ _
      _ = f.it i := hconsI i hi
      _ ≤ I.itemCap i := hcapI i hi
  · have hsome := classify_isSome_of_matching hM hdisj
    refine ⟨cloningDecode_eq J.agents M hsome, ?_, ?_⟩
    · intro a
      rw [cloningFold_get, bundleOf_length]
      calc (M.filter
            (fun e => (classify J.agents e).map Prod.fst = some a)).length
          ≤ (nodesFor (J.agentCap a) a).length := by
            apply length_filter_le_of_side M hM.2
            intro e he hpe
            rcases edge_analysis hM hdisj he with ⟨a', i', _, _, hcl, hAg, _⟩
            have haa : a' = a := by
              have h := of_decide_eq_true hpe
              rw [hcl] at h
              simpa using h
            subst haa
            refine ⟨?_, hAg⟩
            unfold agentSideNode
            by_cases h : stripNode e.1 ∈ J.agents
            · rw [if_pos h]; left; rfl
            · rw [if_neg h]; right; rfl
        _ = J.agentCap a := nodesFor_length _ _
    · intro i
      calc (J.agents.filter
            (fun a => i ∈ ddGet (cloningFold J.agents M) a)).length
          = (J.agents.filter (fun a => i ∈ bundleOf J.agents M a)).length := by
            rw [List.filter_congr
              (fun a _ => by rw [cloningFold_get J.agents M a])]
        _ ≤ (J.agents.map (fun a => (bundleOf J.agents M a).count i)).sum :=
            filter_mem_le_sum_count J.agents (bundleOf J.agents M) i
        _ = (J.agents.map (fun a =>
              (M.filter
                (fun e => classify J.agents e = some (a, i))).length)).sum := by
            rw [List.map_congr_left
              (fun a _ => count_bundleOf J.agents M a i)]
        _ = (M.filter
              (fun e => (classify J.agents e).map Prod.snd = some i)).length :=
            sum_filter_fiber J.agents hJA M i
        _ ≤ (nodesFor (J.itemCap i) i).length := by
            apply length_filter_le_of_side M hM.2
            intro e he hpe
            rcases edge_analysis hM hdisj he with ⟨a', i', _, _, hcl, _, hIt⟩
            have hii : i' = i := by
              have h := of_decide_eq_true hpe
              rw [hcl] at h
              simpa using h
            subst hii
            refine ⟨?_, hIt⟩
            unfold itemSideNode
            by_cases h : stripNode e.1 ∈ J.agents
            · rw [if_pos h]; right; rfl
            · rw [if_neg h]; left; rfl
        _ = J.itemCap i := nodesFor_length _ _

/-- C2 witness: the concrete instance `Iw` with a valid flow and a matching
satisfies the hypotheses, and the agent-capacity bound holds for its flow
result. -/
theorem claim2_witness :
    IsValidFlow Iw fw ∧ Iw.agents.Nodup ∧ (∀ x ∈ Iw.agents, x ∉ Iw.items) ∧
    IsMatchingList Mw (cloneEdges Iw) ∧
    (∀ p ∈ flowResult Iw fw, p.2.length ≤ Iw.agentCap p.1) :=
  ⟨by decide, by decide, by decide, by decide,
    (claim2_capacity_respect Iw fw Iw Mw (by decide) (by decide) (by decide)
      (by decide)).1.2.1⟩

/-- C10: an agent with capacity 0 receives an empty bundle in both engines —
in the flow network the `source → agent` edge has capacity 0, so conservation
forces zero flow on all its outgoing edges; in the cloned graph no clone node
is created for it, so no matched edge can classify to it. -/
theorem claim10_zero_capacity_empty_bundle (I : MInput) (f : Flow) (a : ℕ)
    (J : MInput) (M : List (CNode × CNode)) (b : ℕ)
    (hf : IsValidFlow I f) (ha : a ∈ I.agents) (hcap : I.agentCap a = 0)
    (hM : IsMatchingList M (cloneEdges J))
    (hdisj : ∀ x ∈ J.agents, x ∉ J.items)
    (hcapb : J.agentCap b = 0) :
    (networkFlowMatching I f = Except.ok (flowResult I f) ∧
      flowBundle I f a = []) ∧
    (nodeCloningMatching J M = Except.ok (cloningFold J.agents M) ∧
      ddGet (cloningFold J.agents M) b = []) := by
  obtain ⟨hcapA, hle, _, hconsA, _⟩ := hf
  constructor
  · refine ⟨networkFlowMatching_eq I f hle, ?_⟩
    have hzero : (I.items.map (fun i => flowAt I f a i)).sum = 0 := by
      have h1 := hconsA a ha
      have h2 := hcapA a ha
      omega
    have hempty : I.items.filter (fun i => flowAt I f a i = 1) = [] := by
      rw [List.filter_eq_nil_iff]
      intro i hi
      have hzi : flowAt I f a i = 0 :=
        (List.sum_eq_zero_iff.mp hzero) _ (List.mem_map_of_mem _ hi)
      simp [hzi]
    unfold flowBundle
    rw [hempty]
    rfl
  · have hsome := classify_isSome_of_matching hM hdisj
    refine ⟨cloningDecode_eq J.agents M hsome, ?_⟩
    rw [cloningFold_get]
    unfold bundleOf
    rw [List.filterMap_eq_nil_iff]
    intro e he
    rcases edge_analysis hM hdisj he with ⟨a', i', _, _, hcl, hAg, _⟩
    by_cases hab : a' = b
    · exfalso
      subst hab
      rw [hcapb] at hAg
      simp [nodesFor] at hAg
    · simp [hcl, hab]

/-- C10 witness: in `I10`, agent 0 has capacity 0 and ends with an empty
bundle under both engines. -/
theorem claim10_witness :
    IsValidFlow I10 f10 ∧ I10.agentCap 0 = 0 ∧
    IsMatchingList M10 (cloneEdges I10) ∧ (∀ x ∈ I10.agents, x ∉ I10.items) ∧
    flowBundle I10 f10 0 = [] ∧ ddGet (cloningFold I10.agents M10) 0 = [] := by
  have h := claim10_zero_capacity_empty_bundle I10 f10 0 I10 M10 0
    (by decide) (by decide) rfl (by decide) (by decide) rfl
  exact ⟨by decide, rfl, by decide, by decide, h.1.2, h.2.2⟩

/-! ## Decoded totals -/

theorem sum_map_neg (l : List ℕ) (g : ℕ → ℤ) :
    (l.map (fun i => -(g i))).sum = -((l.map g).sum) := by
  induction l with
  | nil => simp
  | cons x xs ih =>
    simp [ih]
    ring

theorem sum_indicator_filter (g : ℕ → ℕ) (w : ℕ → ℤ) (l : List ℕ)
    (h : ∀ i ∈ l, g i ≤ 1) :
    ((l.filter (fun i => g i = 1)).map w).sum
      = (l.map (fun i => (g i : ℤ) * w i)).sum := by
  induction l with
  | nil => simp
  | cons x xs ih =>
    have hx := h x (by simp)
    have hxs : ∀ i ∈ xs, g i ≤ 1 := fun i hi => h i (by simp [hi])
    rw [List.filter_cons, List.map_cons, List.sum_cons]
    by_cases h1 : g x = 1
    · rw [if_pos (by simpa using h1), List.map_cons, List.sum_cons, ih hxs, h1]
      push_cast
      ring
    · have h0 : g x = 0 := by omega
      rw [if_neg (by simpa using h1), ih hxs, h0]
      push_cast
      ring

theorem flowCost_neg (I : MInput) (f : Flow) :
    flowCost I f = -((I.agents.map (fun a => (I.items.map (fun i =>
      (flowAt I f a i : ℤ) * (I.value a i * I.ent a))).sum)).sum) := by
  unfold flowCost
  rw [← sum_map_neg]
  apply congrArg List.sum
  apply List.map_congr_left
  intro a _
  rw [← sum_map_neg]
  apply congrArg List.sum
  apply List.map_congr_left
  intro i _
  ring

/-- Whenever no edge flow exceeds 1, the total entitlement-weighted value of
the flow engine's result equals minus the flow's cost. -/
theorem flowResult_total (I : MInput) (f : Flow)
    (hle : ∀ a ∈ I.agents, ∀ i ∈ I.items, flowAt I f a i ≤ 1) :
    bundlesTotal I (flowResult I f) = -(flowCost I f) := by
  rw [flowCost_neg, neg_neg]
  unfold bundlesTotal flowResult
  rw [List.map_map]
  apply congrArg List.sum
  apply List.map_congr_left
  intro a ha
  show ((flowBundle I f a).map (fun i => I.value a i * I.ent a)).sum = _
  have hperm : List.Perm
      ((flowBundle I f a).map (fun i => I.value a i * I.ent a))
      ((I.items.filter (fun i => flowAt I f a i = 1)).map
          (fun i => I.value a i * I.ent a)) :=
    (List.perm_insertionSort _ _).map _
  rw [hperm.sum_eq]
  exact sum_indicator_filter (fun i => flowAt I f a i)
    (fun i => I.value a i * I.ent a) I.items (hle a ha)

/-- Each matched edge's stored weight is the weighted value of its
classification. -/
theorem weightOf_matched (J : MInput) (hdisj : ∀ x ∈ J.agents, x ∉ J.items)
    (e : CNode × CNode) (hmem : ∃ q ∈ cloneEdges J, sameEdge e q.1) :
    ∃ a i, classify J.agents e = some (a, i)
      ∧ weightOf e (cloneEdges J) = J.value a i * J.ent a := by
  have hfind : ((cloneEdges J).reverse.find?
      (fun p => decide (sameEdge e p.1))).isSome := by
    rw [List.find?_isSome]
    obtain ⟨q, hq, hs⟩ := hmem
    exact ⟨q, List.mem_reverse.mpr hq, decide_eq_true hs⟩
  obtain ⟨q, hq⟩ := Option.isSome_iff_exists.mp hfind
  have hqmem : q ∈ cloneEdges J :=
    List.mem_reverse.mp (List.mem_of_find?_eq_some hq)
  have hqsame : sameEdge e q.1 := by
    have hps := List.find?_some hq
    exact of_decide_eq_true hps
  rcases mem_cloneEdges hqmem with ⟨a, ha, i, hi, h1, h2, hval⟩
  have hsa : stripNode q.1.1 = a := mem_nodesFor h1
  have hsi : stripNode q.1.2 = i := mem_nodesFor h2
  have hiA : i ∉ J.agents := fun hmem2 => hdisj i hmem2 hi
  refine ⟨a, i, ?_, ?_⟩
  · rcases hqsame with heq | heq
    · rw [heq]
      unfold classify
      have hin : stripNode q.1.1 ∈ J.agents := by rw [hsa]; exact ha
      rw [if_pos hin, hsa, hsi]
    · rw [heq]
      unfold classify
      have hout : stripNode (q.1.2, q.1.1).1 ∉ J.agents := by
        show stripNode q.1.2 ∉ J.agents
        rw [hsi]
        exact hiA
      have hin : stripNode (q.1.2, q.1.1).2 ∈ J.agents := by
        show stripNode q.1.1 ∈ J.agents
        rw [hsa]
        exact ha
      rw [if_neg hout, if_pos hin]
      show some (stripNode q.1.1, stripNode (q.1.2, q.1.1).1) = some (a, i)
      show some (stripNode q.1.1, stripNode q.1.2) = some (a, i)
      rw [hsa, hsi]
  · unfold weightOf
    rw [hq]
    show q.2 = J.value a i * J.ent a
    exact hval

/-- The cloning engine's decoded total equals the weight of the matching it
was fed. -/
theorem cloning_total_eq_weight (J : MInput) (M : List (CNode × CNode))
    (hdisj : ∀ x ∈ J.agents, x ∉ J.items)
    (hM : IsMatchingList M (cloneEdges J)) :
    bundlesTotal J (cloningFold J.agents M) = matchingWeight M (cloneEdges J) := by
  unfold cloningFold matchingWeight
  rw [bundlesTotal_foldl]
  have hacc : bundlesTotal J ([] : List (ℕ × List ℕ)) = 0 := rfl
  rw [hacc, zero_add]
  apply congrArg List.sum
  apply List.map_congr_left
  intro e he
  obtain ⟨a, i, hcl, hw⟩ := weightOf_matched J hdisj e (hM.1 e he)
  rw [hcl, hw]

/-- The solver contract holds for `f4` on `I34`: the single unit-capacity
`agent → item` edge bottlenecks the network at flow value 1, and every
value-1 flow has the same cost. -/
theorem f4_mincostmaxflow : IsMinCostMaxFlow I34 f4 := by
  refine ⟨by decide, ?_, ?_⟩
  · intro g hg
    obtain ⟨hcapA, hle, hcapI, hconsA, hconsI⟩ := hg
    have h1 : flowAt I34 g 0 1 = g.sa 0 := by
      have h := hconsA 0 (by decide)
      simpa using h
    have h2 : flowAt I34 g 0 1 ≤ 1 := hle 0 (by decide) 1 (by decide)
    have h3 : flowValue I34 g = g.sa 0 := by simp [flowValue, I34]
    have h4 : flowValue I34 f4 = 1 := by decide
    omega
  · intro g hg hv
    obtain ⟨hcapA, hle, hcapI, hconsA, hconsI⟩ := hg
    have h1 : flowAt I34 g 0 1 = g.sa 0 := by
      have h := hconsA 0 (by decide)
      simpa using h
    have h3 : flowValue I34 g = g.sa 0 := by simp [flowValue, I34]
    have h4 : flowValue I34 f4 = 1 := by decide
    have h5 : flowAt I34 g 0 1 = 1 := by omega
    have hcostg : flowCost I34 g = -5 := by
      have hc : flowCost I34 g = (flowAt I34 g 0 1 : ℤ) * (-(5 * 1)) := by
        simp [flowCost, I34]
      rw [hc, h5]
      norm_num
    have hcostf : flowCost I34 f4 = -5 := by decide
    rw [hcostg, hcostf]

/-- C4 counterexample: on `I34` (1 agent of capacity 2, 1 item of capacity 2,
value 5, no negative values) the flow engine's total entitlement-weighted
value is 5 — the unit-capacity `agent → item` edge caps the flow at one unit —
while the cloning engine's is 10, because the maximum-weight matching of the
cloned graph pairs both clones of the agent with both units of the item. -/
theorem claim4_counterexample :
    IsMinCostMaxFlow I34 f4 ∧
    IsMaxWeightMatching M4 I34 ∧
    networkFlowMatching I34 f4 = Except.ok [(0, [1])] ∧
    nodeCloningMatching I34 M4 = Except.ok [(0, [1, 1])] ∧
    bundlesTotal I34 [(0, [1])] = 5 ∧
    bundlesTotal I34 [(0, [1, 1])] = 10 :=
  ⟨f4_mincostmaxflow, by decide, by rfl, by rfl, by decide, by decide⟩

/-- C4 amended: the two totals are characterized, but not equal, in general:
the flow engine's total equals minus the cost of the min-cost maximum flow,
and the cloning engine's total equals the maximum matching weight of the
cloned graph, which counts an `(agent, item)` pair once per matched
clone-pair and can therefore exceed the flow engine's flow-limited total even
on small instances without negative values (counterexample above). -/
theorem claim4_amended_totals_characterized (I : MInput) (f : Flow)
    (J : MInput) (M : List (CNode × CNode))
    (hf : IsValidFlow I f)
    (hdisj : ∀ x ∈ J.agents, x ∉ J.items)
    (hM : IsMaxWeightMatching M J) :
    bundlesTotal I (flowResult I f) = -(flowCost I f) ∧
    bundlesTotal J (cloningFold J.agents M) = maxMatchingWeight (cloneEdges J) := by
  refine ⟨flowResult_total I f hf.2.1, ?_⟩
  rw [cloning_total_eq_weight J M hdisj hM.1, hM.2]

/-- C4 amended witness: both characterizations evaluated on `I34`. -/
theorem claim4_amended_witness :
    IsValidFlow I34 f4 ∧ IsMaxWeightMatching M3 I34 ∧
    bundlesTotal I34 (cloningFold I34.agents M3)
      = maxMatchingWeight (cloneEdges I34) :=
  ⟨by decide, by decide,
    (claim4_amended_totals_characterized I34 f4 I34 M3 (by decide) (by decide)
      (by decide)).2⟩

/-! ## Flow optimality among maximum-cardinality assignments -/

theorem flowAt_flowOfSet (I : MInput) (S : Finset (ℕ × ℕ))
    (hpres : ∀ p ∈ S, I.aiPresent p.1 p.2) (a i : ℕ) :
    flowAt I (flowOfSet S) a i = if (a, i) ∈ S then 1 else 0 := by
  show (if I.aiPresent a i then (if (a, i) ∈ S then (1 : ℕ) else 0) else 0)
      = if (a, i) ∈ S then 1 else 0
  by_cases hmem : (a, i) ∈ S
  · rw [if_pos (hpres (a, i) hmem)]
  · by_cases hp : I.aiPresent a i
    · rw [if_pos hp]
    · rw [if_neg hp, if_neg hmem]

theorem card_fiber_snd (S : Finset (ℕ × ℕ)) (itemsF : Finset ℕ) (a : ℕ)
    (h : ∀ p ∈ S, p.1 = a → p.2 ∈ itemsF) :
    (S.filter (fun p => p.1 = a)).card
      = ∑ i ∈ itemsF, (if (a, i) ∈ S then 1 else 0) := by
  rw [Finset.card_eq_sum_card_fiberwise (f := Prod.snd) (t := itemsF)
    (fun p hp => h p (Finset.mem_filter.mp hp).1 (Finset.mem_filter.mp hp).2)]
  apply Finset.sum_congr rfl
  intro i _
  rw [Finset.filter_filter]
  rw [show (S.filter (fun p => p.1 = a ∧ p.2 = i))
        = S.filter (fun p => p = (a, i)) from
      Finset.filter_congr (fun p _ => by
        constructor
        · rintro ⟨h1, h2⟩
          exact Prod.ext h1 h2
        · rintro rfl
          exact ⟨rfl, rfl⟩)]
  rw [Finset.filter_eq']
  by_cases hm : (a, i) ∈ S <;> simp [hm]

theorem card_fiber_fst (S : Finset (ℕ × ℕ)) (agentsF : Finset ℕ) (i : ℕ)
    (h : ∀ p ∈ S, p.2 = i → p.1 ∈ agentsF) :
    (S.filter (fun p => p.2 = i)).card
      = ∑ a ∈ agentsF, (if (a, i) ∈ S then 1 else 0) := by
  rw [Finset.card_eq_sum_card_fiberwise (f := Prod.fst) (t := agentsF)
    (fun p hp => h p (Finset.mem_filter.mp hp).1 (Finset.mem_filter.mp hp).2)]
  apply Finset.sum_congr rfl
  intro a _
  rw [Finset.filter_filter]
  rw [show (S.filter (fun p => p.2 = i ∧ p.1 = a))
        = S.filter (fun p => p = (a, i)) from
      Finset.filter_congr (fun p _ => by
        constructor
        · rintro ⟨h2, h1⟩
          exact Prod.ext h1 h2
        · rintro rfl
          exact ⟨rfl, rfl⟩)]
  rw [Finset.filter_eq']
  by_cases hm : (a, i) ∈ S <;> simp [hm]

/-- The flow induced by an admissible assignment is feasible. -/
theorem flowOfSet_valid (I : MInput) (S : Finset (ℕ × ℕ))
    (hA : I.agents.Nodup) (hI : I.items.Nodup) (hS : Admissible I S) :
    IsValidFlow I (flowOfSet S) := by
  obtain ⟨hpres, hcapA, hcapI⟩ := hS
  refine ⟨?_, ?_, ?_, ?_, ?_⟩
  · intro a ha
    exact hcapA a ha
  · intro a _ i _
    rw [flowAt_flowOfSet I S hpres]
    by_cases hm : (a, i) ∈ S <;> simp [hm]
  · intro i hi
    exact hcapI i hi
  · intro a _
    show _ = (S.filter (fun p => p.1 = a)).card
    rw [List.map_congr_left (fun i _ => flowAt_flowOfSet I S hpres a i)]
    rw [← List.sum_toFinset _ hI]
    exact (card_fiber_snd S I.items.toFinset a
      (fun p hp _ => List.mem_toFinset.mpr (hpres p hp).2.1)).symm
  · intro i _
    show _ = (S.filter (fun p => p.2 = i)).card
    rw [List.map_congr_left (fun a _ => flowAt_flowOfSet I S hpres a i)]
    rw [← List.sum_toFinset _ hA]
    exact (card_fiber_fst S I.agents.toFinset i
      (fun p hp _ => List.mem_toFinset.mpr (hpres p hp).1)).symm

/-- The flow induced by an assignment carries one unit per assigned pair. -/
theorem flowOfSet_value (I : MInput) (S : Finset (ℕ × ℕ)) (hA : I.agents.Nodup)
    (hS1 : ∀ p ∈ S, p.1 ∈ I.agents) :
    flowValue I (flowOfSet S) = S.card := by
  show (I.agents.map (fun a => (S.filter (fun p => p.1 = a)).card)).sum = S.card
  rw [← List.sum_toFinset _ hA]
  exact (Finset.card_eq_sum_card_fiberwise
    (fun p hp => List.mem_toFinset.mpr (hS1 p hp))).symm

/-- The flow induced by an assignment costs minus the assignment's total
entitlement-weighted value. -/
theorem flowOfSet_cost (I : MInput) (S : Finset (ℕ × ℕ))
    (hA : I.agents.Nodup) (hI : I.items.Nodup)
    (hpres : ∀ p ∈ S, I.aiPresent p.1 p.2) :
    flowCost I (flowOfSet S) = -(totalValue I S) := by
  rw [flowCost_neg]
  congr 1
  calc (I.agents.map (fun a => (I.items.map (fun i =>
        (flowAt I (flowOfSet S) a i : ℤ) * (I.value a i * I.ent a))).sum)).sum
      = ∑ a ∈ I.agents.toFinset, ∑ i ∈ I.items.toFinset,
          (if (a, i) ∈ S then I.value a i * I.ent a else 0) := by
        rw [← List.sum_toFinset _ hA]
        apply Finset.sum_congr rfl
        intro a _
        rw [← List.sum_toFinset _ hI]
        apply Finset.sum_congr rfl
        intro i _
        rw [flowAt_flowOfSet I S hpres]
        by_cases hm : (a, i) ∈ S <;> simp [hm]
    _ = ∑ p ∈ I.agents.toFinset ×ˢ I.items.toFinset,
          (if (p.1, p.2) ∈ S then I.value p.1 p.2 * I.ent p.1 else 0) :=
        (Finset.sum_product' _ _ _).symm
    _ = ∑ p ∈ I.agents.toFinset ×ˢ I.items.toFinset,
          (if p ∈ S then I.value p.1 p.2 * I.ent p.1 else 0) :=
        Finset.sum_congr rfl (fun p _ => rfl)
    _ = ∑ p ∈ (I.agents.toFinset ×ˢ I.items.toFinset).filter (fun p => p ∈ S),
          I.value p.1 p.2 * I.ent p.1 := (Finset.sum_filter _ _).symm
    _ = totalValue I S := by
        apply Finset.sum_congr ?_ (fun _ _ => rfl)
        rw [Finset.filter_mem_eq_inter]
        apply Finset.inter_eq_right.mpr
        intro p hp
        exact Finset.mem_product.mpr
          ⟨List.mem_toFinset.mpr (hpres p hp).1,
            List.mem_toFinset.mpr (hpres p hp).2.1⟩

/-- C1 amended: what the flow engine optimizes is constrained by the
maximum-flow requirement — its result maximizes total entitlement-weighted
value among the capacity-respecting, duplicate-free assignments over present
pairs *of the same cardinality as the maximum flow*; unrestricted global
optimality fails (counterexample below), and the cloning engine optimizes
over clone-matchings, which may repeat an `(agent, item)` pair. -/
theorem claim1_amended_flow_optimal_same_cardinality (I : MInput) (f : Flow)
    (hA : I.agents.Nodup) (hI : I.items.Nodup)
    (hf : IsMinCostMaxFlow I f)
    (S : Finset (ℕ × ℕ)) (hS : Admissible I S)
    (hcard : S.card = flowValue I f) :
    networkFlowMatching I f = Except.ok (flowResult I f) ∧
    totalValue I S ≤ bundlesTotal I (flowResult I f) := by
  obtain ⟨hvalid, hmaxv, hmincost⟩ := hf
  have hle := hvalid.2.1
  refine ⟨networkFlowMatching_eq I f hle, ?_⟩
  rw [flowResult_total I f hle]
  have hg := flowOfSet_valid I S hA hI hS
  have hval : flowValue I (flowOfSet S) = flowValue I f := by
    rw [flowOfSet_value I S hA (fun p hp => (hS.1 p hp).1), hcard]
  have hcost := hmincost (flowOfSet S) hg hval
  rw [flowOfSet_cost I S hA hI hS.1] at hcost
  omega

/-- The cost of any flow on `I1`'s network as a function of its two
nonzero-weight edge flows. -/
theorem flowCost_I1_form (h : Flow) :
    flowCost I1 h
      = -(flowAt I1 h 0 2 : ℤ) + -(10 * (flowAt I1 h 1 3 : ℤ)) := by
  unfold flowCost
  rw [show I1.agents = [0, 1] from rfl, show I1.items = [2, 3] from rfl]
  simp only [List.map_cons, List.map_nil, List.sum_cons, List.sum_nil]
  rw [show I1.value 0 2 = 1 from rfl, show I1.value 0 3 = 0 from rfl,
    show I1.value 1 2 = 0 from rfl, show I1.value 1 3 = 10 from rfl,
    show I1.ent 0 = 1 from rfl, show I1.ent 1 = 1 from rfl]
  ring

/-- The solver contract holds for `f1` on `I1`: the source edges cap the flow
value at 3, every value-3 flow is forced onto the same four edge flows, and
hence has the same cost. -/
theorem f1_mincostmaxflow : IsMinCostMaxFlow I1 f1 := by
  refine ⟨by decide, ?_, ?_⟩
  · intro g hg
    obtain ⟨hcapA, hle, hcapI, hconsA, hconsI⟩ := hg
    have hsa0 : g.sa 0 ≤ 2 := hcapA 0 (by decide)
    have hsa1 : g.sa 1 ≤ 1 := hcapA 1 (by decide)
    have hv : flowValue I1 g = g.sa 0 + g.sa 1 := by
      show ([0, 1].map g.sa).sum = _
      simp
    have hvf : flowValue I1 f1 = 3 := by decide
    omega
  · intro g hg hv
    obtain ⟨hcapA, hle, hcapI, hconsA, hconsI⟩ := hg
    have hsa0 : g.sa 0 ≤ 2 := hcapA 0 (by decide)
    have hsa1 : g.sa 1 ≤ 1 := hcapA 1 (by decide)
    have hit3 : g.it 3 ≤ 1 := hcapI 3 (by decide)
    have hc0 : flowAt I1 g 0 2 + flowAt I1 g 0 3 = g.sa 0 := by
      have h := hconsA 0 (by decide)
      rw [show I1.items = [2, 3] from rfl] at h
      simpa using h
    have hc1 : flowAt I1 g 1 2 + flowAt I1 g 1 3 = g.sa 1 := by
      have h := hconsA 1 (by decide)
      rw [show I1.items = [2, 3] from rfl] at h
      simpa using h
    have hi3 : flowAt I1 g 0 3 + flowAt I1 g 1 3 = g.it 3 := by
      have h := hconsI 3 (by decide)
      rw [show I1.agents = [0, 1] from rfl] at h
      simpa using h
    have h02 : flowAt I1 g 0 2 ≤ 1 := hle 0 (by decide) 2 (by decide)
    have h03 : flowAt I1 g 0 3 ≤ 1 := hle 0 (by decide) 3 (by decide)
    have h13 : flowAt I1 g 1 3 ≤ 1 := hle 1 (by decide) 3 (by decide)
    have hvg : flowValue I1 g = g.sa 0 + g.sa 1 := by
      show ([0, 1].map g.sa).sum = _
      simp
    have hvf : flowValue I1 f1 = 3 := by decide
    have f02 : flowAt I1 g 0 2 = 1 := by omega
    have f13 : flowAt I1 g 1 3 = 0 := by omega
    have hcostg : flowCost I1 g = -1 := by
      rw [flowCost_I1_form g, f02, f13]
      norm_num
    have hcostf : flowCost I1 f1 = -1 := by decide
    rw [hcostf, hcostg]

/-- C1 counterexample: on `I1` — nonnegative values, default mode, unit
entitlements — the min-cost maximum flow is forced to carry 3 units and the
flow engine returns a total entitlement-weighted value of 1, while the
admissible (capacity-respecting, present-pairs-only) assignment `S1` of
cardinality 2 attains total value 11: the returned assignment does not
maximize total value over all capacity-respecting assignments. -/
theorem claim1_counterexample :
    IsMinCostMaxFlow I1 f1 ∧
    networkFlowMatching I1 f1 = Except.ok [(0, [2, 3]), (1, [2])] ∧
    bundlesTotal I1 [(0, [2, 3]), (1, [2])] = 1 ∧
    Admissible I1 S1 ∧
    totalValue I1 S1 = 11 :=
  ⟨f1_mincostmaxflow, by rfl, by decide, by decide, by decide⟩

/-- C1 amended witness: the maximum-cardinality assignment `Sw1` of `I1` has
cardinality equal to the maximum flow value, and the flow engine's total
dominates its total. -/
theorem claim1_amended_witness :
    I1.agents.Nodup ∧ I1.items.Nodup ∧ IsMinCostMaxFlow I1 f1 ∧
    Admissible I1 Sw1 ∧ Sw1.card = flowValue I1 f1 ∧
    totalValue I1 Sw1 ≤ bundlesTotal I1 (flowResult I1 f1) :=
  ⟨by decide, by decide, f1_mincostmaxflow, by decide, by decide,
    (claim1_amended_flow_optimal_same_cardinality I1 f1 (by decide) (by decide)
      f1_mincostmaxflow Sw1 (by decide) (by decide)).2⟩

end FairpyxGraph
